import Mathlib

/-!
Verification of the obsidian-r2-uploader plugin core.

JavaScript strings are modelled as `List Char` (one element per Unicode
scalar; the source only manipulates ASCII in the places the claims touch).
Byte buffers (`ArrayBuffer` / `Uint8Array`) are modelled as `List Nat` with
each element < 256 where it matters.  Fallible operations return `Option`
or `Except`.  Recursions that are not structural in the JS loops are given
explicit fuel equal to the input length so that every definition reduces in
the kernel.
-/

namespace R2

/-- JS `String.prototype.trim`: drop whitespace from both ends. -/
def jsTrim (l : List Char) : List Char :=
  ((l.dropWhile Char.isWhitespace).reverse.dropWhile Char.isWhitespace).reverse

/-- JS `String.prototype.toLowerCase` restricted to ASCII (all inputs the
source feeds it are ASCII file names / URLs). -/
def toLowerL (l : List Char) : List Char := l.map Char.toLower

/-- Fueled worker for `jsReplaceFirst`; call sites use fuel = input length. -/
def jsReplaceFirstF : Nat → List Char → List Char → List Char → List Char
  | 0, l, _, _ => l
  | fuel + 1, l, pat, rep =>
    if pat.isPrefixOf l then rep ++ l.drop pat.length
    else
      match l with
      | [] => []
      | c :: rest => c :: jsReplaceFirstF fuel rest pat rep

/-- JS `String.prototype.replace` with a plain-string pattern: replace the
first occurrence only (the whole string is returned unchanged when the
pattern does not occur). -/
def jsReplaceFirst (l pat rep : List Char) : List Char :=
  jsReplaceFirstF (l.length + 1) l pat rep

/-- Fueled worker for `jsReplaceAll` (nonempty pattern); the empty-pattern
case is handled separately in `jsReplaceAll`. -/
def jsReplaceAllF : Nat → List Char → List Char → List Char → List Char
  | 0, l, _, _ => l
  | fuel + 1, l, pat, rep =>
    if pat ≠ [] ∧ pat.isPrefixOf l then rep ++ jsReplaceAllF fuel (l.drop pat.length) pat rep
    else
      match l with
      | [] => []
      | c :: rest => c :: jsReplaceAllF fuel rest pat rep

/-- JS `String.prototype.replaceAll` with a plain-string pattern: every
non-overlapping occurrence, scanned left to right.  An empty pattern makes
JS interleave the replacement at every position. -/
def jsReplaceAll (l pat rep : List Char) : List Char :=
  if pat = [] then rep ++ (l.map (fun c => c :: rep)).flatten
  else jsReplaceAllF l.length l pat rep

/-- `true` iff `pat` occurs as a contiguous substring of `l`. -/
def occursIn (pat : List Char) : List Char → Bool
  | [] => pat.isPrefixOf ([] : List Char)
  | c :: rest => pat.isPrefixOf (c :: rest) || occursIn pat rest

/-- Index of the first occurrence of `pat` in `l` (JS `indexOf`). -/
def indexOfSub (pat : List Char) : List Char → Option Nat
  | [] => if pat.isPrefixOf ([] : List Char) then some 0 else none
  | c :: rest =>
    if pat.isPrefixOf (c :: rest) then some 0
    else (indexOfSub pat rest).map (· + 1)

/-- The substring after the last occurrence of `sep` (the whole string when
`sep` does not occur): JS `s.split(sep).pop()`. -/
def afterLastSep (sep : Char) (l : List Char) : List Char :=
  (l.reverse.takeWhile (· ≠ sep)).reverse

/-- The character of one decimal digit. -/
def digitCh (d : Nat) : Char := Char.ofNat (48 + d)

/-- Fueled worker for `natToStr` (fuel `n + 1` is always enough since the
argument shrinks by a factor of ten each step). -/
def natToStrF : Nat → Nat → List Char
  | 0, _ => []
  | fuel + 1, n => if n < 10 then [digitCh n] else natToStrF fuel (n / 10) ++ [digitCh (n % 10)]

/-- Decimal digits of a natural number, as JS `Number.prototype.toString`. -/
def natToStr (n : Nat) : List Char := natToStrF (n + 1) n

/-- JS `String.prototype.padStart(n, '0')`. -/
def padZero (n : Nat) (l : List Char) : List Char :=
  List.replicate (n - l.length) '0' ++ l

end R2

namespace R2

/-! ## Naming Engine (`src/src/uploader/uploaderUtils.ts`) -/

/-- The numeric fields of a JS `Date` at the moment of the call
(`getMonth` is 0-based, exactly as in JS). -/
structure JsDate where
  fullYear : Nat
  month0 : Nat
  day : Nat
  hours : Nat
  minutes : Nat
  seconds : Nat
  ms : Nat
deriving DecidableEq

/-- The 62-character alphabet of `generateRandomString`. -/
def randomAlphabet : List Char :=
  "ABCDEFGHIJKLMNOPQRSTUVWXYZabcdefghijklmnopqrstuvwxyz0123456789".data

/-- `UploaderUtils.generateRandomString`, with the stream of
`Math.floor(Math.random() * 62)` draws abstracted as `rand`. -/
def generateRandomString (rand : Nat → Fin 62) (length : Nat) : List Char :=
  (List.range length).map (fun i => randomAlphabet.get ((rand i).cast (by decide)))

/-- The `YYYYMMDDHHmmssSSS` timestamp built at the top of
`generateUniqueFileName`. -/
def uniqueTimestamp (d : JsDate) : List Char :=
  natToStr d.fullYear ++ padZero 2 (natToStr (d.month0 + 1)) ++ padZero 2 (natToStr d.day)
    ++ padZero 2 (natToStr d.hours) ++ padZero 2 (natToStr d.minutes)
    ++ padZero 2 (natToStr d.seconds) ++ padZero 3 (natToStr d.ms)

/-- `originalName.replace(/\.[^/.]+$/, '')`: strip a final `.`-extension
made of one or more characters none of which is `/` or `.`. -/
def stripLastExt (l : List Char) : List Char :=
  let revTail := l.reverse.takeWhile (fun c => c ≠ '.' ∧ c ≠ '/')
  match l.reverse.drop revTail.length with
  | '.' :: _ => if revTail = [] then l else (l.reverse.drop (revTail.length + 1)).reverse
  | _ => l

/-- `UploaderUtils.generateUniqueFileName` (time passed explicitly). -/
def generateUniqueFileName (d : JsDate) (originalName : List Char) : List Char :=
  let timestamp := uniqueTimestamp d
  -- const extension = originalName.split('.').pop() || 'png';
  let lastSeg := afterLastSep '.' originalName
  let extension := if lastSeg = [] then "png".data else lastSeg
  if occursIn "image".data (toLowerL originalName) || originalName = "blob".data then
    "Pasted image ".data ++ timestamp ++ ".".data ++ extension
  else
    let nameWithoutExt := stripLastExt originalName
    nameWithoutExt ++ " ".data ++ timestamp ++ ".".data ++ extension

/-- `UploaderUtils.generateName` (time and random stream passed
explicitly).  Each placeholder is substituted with JS `replace`, i.e. first
occurrence only. -/
def generateName (rand : Nat → Fin 62) (d : JsDate) (pathTmpl imageName : List Char) :
    List Char :=
  let year := natToStr d.fullYear
  let month := padZero 2 (natToStr (d.month0 + 1))
  let day := padZero 2 (natToStr d.day)
  let random := generateRandomString rand 20
  let uniqueFileName := generateUniqueFileName d imageName
  if (jsTrim pathTmpl).length > 0 then
    jsReplaceFirst
      (jsReplaceFirst
        (jsReplaceFirst
          (jsReplaceFirst
            (jsReplaceFirst pathTmpl "{year}".data year)
            "{mon}".data month)
          "{day}".data day)
        "{random}".data random)
      "{filename}".data uniqueFileName
  else uniqueFileName

/-! ## `UploaderUtils.customizeDomainName` -/

/-- Try to match the regex `https?:\/\/([^/]+)` at the head of `l`.
Returns `(matchedText, capturedDomain)` on success.  The optional `s` is
greedy; `[^/]+` is the maximal nonempty run of non-`/` characters. -/
def trySchemeAt (l : List Char) : Option (List Char × List Char) :=
  match l with
  | 'h' :: 't' :: 't' :: 'p' :: rest =>
    match rest with
    | 's' :: ':' :: '/' :: '/' :: after =>
      let dom := after.takeWhile (· ≠ '/')
      if dom = [] then none else some ("https://".data ++ dom, dom)
    | ':' :: '/' :: '/' :: after =>
      let dom := after.takeWhile (· ≠ '/')
      if dom = [] then none else some ("http://".data ++ dom, dom)
    | _ => none
  | _ => none

/-- Leftmost match of `https?:\/\/([^/]+)` anywhere in the string:
`(startIndex, matchedText, capturedDomain)`. -/
def findSchemeHost : List Char → Option (Nat × List Char × List Char)
  | [] => none
  | c :: rest =>
    match trySchemeAt (c :: rest) with
    | some (m, dom) => some (0, m, dom)
    | none => (findSchemeHost rest).map (fun r => (r.1 + 1, r.2.1, r.2.2))

/-- `UploaderUtils.customizeDomainName`.  The callback passed to
`url.replace(regex, (match, domain) => match.replace(domain, cdn))`
replaces the first occurrence of the captured domain inside the matched
text; `url.replace` itself rewrites the leftmost regex match only. -/
def customizeDomainName (url customDomainName : List Char) : List Char :=
  let cdn := jsReplaceAll customDomainName "https://".data []
  if cdn ≠ [] ∧ jsTrim cdn ≠ [] then
    match findSchemeHost url with
    | some (i, m, dom) =>
      url.take i ++ jsReplaceFirst m dom cdn ++ url.drop (i + m.length)
    | none => "https://".data ++ cdn ++ "/".data ++ url
  else url

end R2

namespace R2

/-! ## Reference Extractor (`src/unnamed/part_003`, class `ImageTagProcessor`) -/

/-- One in-document media reference (interface `ImageTag`).  Offsets are
indices into the scanned text; the source's `end` field is called `stop`
here because `end` is a Lean keyword. -/
structure ImageTag where
  originalText : List Char
  altText : List Char
  imagePath : List Char
  start : Nat
  stop : Nat
deriving DecidableEq

/-- Try the bracket-link regex `!\[([^\]]*)\]\(([^)]+)\)` at the head of
`l`; returns `(originalText, altText, imagePath)`.  `[^\]]*` is the
maximal (possibly empty) run without `]`, `[^)]+` the maximal nonempty run
without `)`; both are followed by a forced literal, so no backtracking can
occur. -/
def tryMd (l : List Char) : Option (List Char × List Char × List Char) :=
  match l with
  | '!' :: '[' :: rest =>
    let alt := rest.takeWhile (· ≠ ']')
    match rest.dropWhile (· ≠ ']') with
    | ']' :: '(' :: rest2 =>
      let p := rest2.takeWhile (· ≠ ')')
      match rest2.dropWhile (· ≠ ')') with
      | ')' :: _ =>
        if p = [] then none
        else some ('!' :: '[' :: (alt ++ ']' :: '(' :: (p ++ [')'])), alt, p)
      | _ => none
    | _ => none
  | _ => none

/-- Try the embedded-link regex `!\[\[([^\]]+)\]\]` at the head of `l`;
returns `(originalText, target)`. -/
def tryWiki (l : List Char) : Option (List Char × List Char) :=
  match l with
  | '!' :: '[' :: '[' :: rest =>
    let tgt := rest.takeWhile (· ≠ ']')
    match rest.dropWhile (· ≠ ']') with
    | ']' :: ']' :: _ =>
      if tgt = [] then none
      else some ('!' :: '[' :: '[' :: (tgt ++ ']' :: [']']), tgt)
    | _ => none
  | _ => none

/-- The `mdImageRegex.exec` loop: scan left to right, emit each match,
resume just past it (JS advances `lastIndex` by the match length). -/
def mdScanF : Nat → List Char → Nat → List ImageTag
  | 0, _, _ => []
  | fuel + 1, l, i =>
    match tryMd l with
    | some (orig, alt, p) =>
      { originalText := orig, altText := alt, imagePath := p,
        start := i, stop := i + orig.length }
        :: mdScanF fuel (l.drop orig.length) (i + orig.length)
    | none =>
      match l with
      | [] => []
      | _ :: rest => mdScanF fuel rest (i + 1)

/-- The `wikiImageRegex.exec` loop (wiki links carry no alt text). -/
def wikiScanF : Nat → List Char → Nat → List ImageTag
  | 0, _, _ => []
  | fuel + 1, l, i =>
    match tryWiki l with
    | some (orig, tgt) =>
      { originalText := orig, altText := [], imagePath := tgt,
        start := i, stop := i + orig.length }
        :: wikiScanF fuel (l.drop orig.length) (i + orig.length)
    | none =>
      match l with
      | [] => []
      | _ :: rest => wikiScanF fuel rest (i + 1)

/-- All bracket-link matches of a text, in document order. -/
def mdScan (content : List Char) : List ImageTag := mdScanF content.length content 0

/-- All embedded-link matches of a text, in document order. -/
def wikiScan (content : List Char) : List ImageTag := wikiScanF content.length content 0

/-- `ImageTagProcessor.extractImageTags`: the source pushes every
bracket-link match, then every embedded-link match, into one array. -/
def extractImageTags (content : List Char) : List ImageTag :=
  mdScan content ++ wikiScan content

/-- `ImageTagProcessor.isLocalImage`. -/
def isLocalImage (imagePath : List Char) : Bool :=
  ¬ ("http://".data.isPrefixOf imagePath) ∧ ¬ ("https://".data.isPrefixOf imagePath)
    ∧ ¬ ("data:".data.isPrefixOf imagePath)

/-! ### `decodeURIComponent` model -/

/-- Value of one hex digit. -/
def hexVal (c : Char) : Option Nat :=
  if '0' ≤ c ∧ c ≤ '9' then some (c.toNat - '0'.toNat)
  else if 'a' ≤ c ∧ c ≤ 'f' then some (c.toNat - 'a'.toNat + 10)
  else if 'A' ≤ c ∧ c ≤ 'F' then some (c.toNat - 'A'.toNat + 10)
  else none

/-- Collect the maximal run of `%HH` triples at the head of the input;
`none` on a malformed escape (JS throws `URIError`). -/
def pctRun : List Char → Option (List Nat × List Char)
  | '%' :: h1 :: h2 :: rest => do
    let a ← hexVal h1
    let b ← hexVal h2
    let (bs, rem) ← pctRun rest
    pure ((a * 16 + b) :: bs, rem)
  | '%' :: _ => none
  | l => some ([], l)

/-- Strict UTF-8 decoding of a byte run (overlong forms, surrogates and
out-of-range sequences are rejected, as `decodeURIComponent` does). -/
def utf8DecodeBytes : List Nat → Option (List Char)
  | [] => some []
  | b :: rest =>
    if b < 0x80 then do
      let tl ← utf8DecodeBytes rest
      pure (Char.ofNat b :: tl)
    else if 0xC2 ≤ b ∧ b ≤ 0xDF then
      match rest with
      | c1 :: rest1 =>
        if 0x80 ≤ c1 ∧ c1 ≤ 0xBF then do
          let tl ← utf8DecodeBytes rest1
          pure (Char.ofNat ((b - 0xC0) * 64 + (c1 - 0x80)) :: tl)
        else none
      | _ => none
    else if 0xE0 ≤ b ∧ b ≤ 0xEF then
      match rest with
      | c1 :: c2 :: rest2 =>
        let lo1 := if b = 0xE0 then 0xA0 else 0x80
        let hi1 := if b = 0xED then 0x9F else 0xBF
        if lo1 ≤ c1 ∧ c1 ≤ hi1 ∧ 0x80 ≤ c2 ∧ c2 ≤ 0xBF then do
          let tl ← utf8DecodeBytes rest2
          pure (Char.ofNat ((b - 0xE0) * 4096 + (c1 - 0x80) * 64 + (c2 - 0x80)) :: tl)
        else none
      | _ => none
    else if 0xF0 ≤ b ∧ b ≤ 0xF4 then
      match rest with
      | c1 :: c2 :: c3 :: rest3 =>
        let lo1 := if b = 0xF0 then 0x90 else 0x80
        let hi1 := if b = 0xF4 then 0x8F else 0xBF
        if lo1 ≤ c1 ∧ c1 ≤ hi1 ∧ 0x80 ≤ c2 ∧ c2 ≤ 0xBF ∧ 0x80 ≤ c3 ∧ c3 ≤ 0xBF then do
          let tl ← utf8DecodeBytes rest3
          pure (Char.ofNat ((b - 0xF0) * 262144 + (c1 - 0x80) * 4096
            + (c2 - 0x80) * 64 + (c3 - 0x80)) :: tl)
        else none
      | _ => none
    else none

/-- Fueled worker for `decodeURIComponentL`. -/
def decodeURIComponentF : Nat → List Char → Option (List Char)
  | 0, l => if l = [] then some [] else none
  | fuel + 1, l =>
    match l with
    | [] => some []
    | '%' :: rest => do
      let (bs, rem) ← pctRun ('%' :: rest)
      let chars ← utf8DecodeBytes bs
      let tl ← decodeURIComponentF fuel rem
      pure (chars ++ tl)
    | c :: rest => do
      let tl ← decodeURIComponentF fuel rest
      pure (c :: tl)

/-- JS `decodeURIComponent`; `none` models the thrown `URIError`. -/
def decodeURIComponentL (l : List Char) : Option (List Char) :=
  decodeURIComponentF l.length l

/-! ### `isVideoAsset` -/

/-- The extension allow-list of `videoExtensionRegex`, in alternation
order. -/
def videoExts : List (List Char) :=
  ["mp4", "mov", "m4v", "webm", "ogg", "ogv", "mkv", "avi", "mpeg", "mpg",
   "mpe", "m2v", "3gp", "3g2"].map String.data

/-- The lookahead `(?=($|[?#]))` of `videoExtensionRegex`. -/
def videoBoundary : List Char → Bool
  | [] => true
  | '?' :: _ => true
  | '#' :: _ => true
  | _ => false

/-- One attempted match of `\.(ext…)(?=($|[?#]))` at the head of `l`. -/
def videoTestAt (l : List Char) : Bool :=
  match l with
  | c :: rest =>
    (c = '.') && videoExts.any (fun e => e.isPrefixOf rest && videoBoundary (rest.drop e.length))
  | [] => false

/-- `videoExtensionRegex.test`: a match exists at some position. -/
def videoTest : List Char → Bool
  | [] => false
  | c :: rest => videoTestAt (c :: rest) || videoTest rest

/-- `ImageTagProcessor.isVideoAsset`.  `none` models `undefined`/`null`;
the empty string is also falsy in the `if (!target)` guard.  The `/i` flag
is subsumed by the explicit `toLowerCase` the source applies first. -/
def isVideoAsset (target : Option (List Char)) : Bool :=
  match target with
  | none => false
  | some t =>
    if t = [] then false
    else
      let normalized := (decodeURIComponentL t).getD t
      videoTest (toLowerL normalized)

/-- Claim C8's wording at one position: the string has, at index `i`, a
dot followed by the extension `e`, immediately followed by end-of-string,
`?` or `#`. -/
def hasVideoExtAt (l : List Char) (i : Nat) (e : List Char) : Prop :=
  (l.drop i).take (e.length + 1) = '.' :: e
    ∧ videoBoundary (l.drop (i + 1 + e.length)) = true

end R2

namespace R2

/-! ## Request Signer (`src/unnamed/part_001`, class `R2Uploader`)

The cryptographic primitives are abstracted: `sha256hex b` stands for
`hex(SHA256(b))` and `hmac k d` for the raw 32-byte `HMAC-SHA256(k, d)`
MAC.  Every theorem below is universally quantified over them, so it holds
in particular for the real functions. -/

/-- Lowercase hex encoding of a byte array:
`hashArray.map(b => b.toString(16).padStart(2, '0')).join('')`. -/
def hexOfBytes (bs : List Nat) : List Char :=
  bs.flatMap (fun b => padZero 2 (Nat.toDigits 16 b))

/-- UTF-8 encoding of a string (`new TextEncoder().encode(s)`). -/
def utf8Encode (l : List Char) : List Nat :=
  l.flatMap (fun c =>
    let n := c.toNat
    if n < 0x80 then [n]
    else if n < 0x800 then [0xC0 + n / 64, 0x80 + n % 64]
    else if n < 0x10000 then [0xE0 + n / 4096, 0x80 + n / 64 % 64, 0x80 + n % 64]
    else [0xF0 + n / 262144, 0x80 + n / 4096 % 64, 0x80 + n / 64 % 64, 0x80 + n % 64])

/-- The `key` argument of `hmacSha256` as it arrives at
`crypto.subtle.importKey('raw', key, …)`: the source sometimes passes a
byte buffer and sometimes (the chained calls) a JS string. -/
inductive JsKeyData where
  | buf (b : List Nat)
  | str (s : List Char)

/-- WebCrypto `importKey('raw', keyData, …)`: `keyData` must be a
`BufferSource`; a JS string is rejected with a `TypeError`
(`Except.error ()`). -/
def importKeyRaw : JsKeyData → Except Unit (List Nat)
  | .buf b => .ok b
  | .str _ => .error ()

/-- `R2Uploader.hmacSha256`: imports the key, signs the UTF-8 bytes of
`data`, and returns the lowercase hex string of the MAC. -/
def hmacSha256 (hmac : List Nat → List Nat → List Nat) (key : JsKeyData)
    (data : List Char) : Except Unit (List Char) := do
  let k ← importKeyRaw key
  pure (hexOfBytes (hmac k (utf8Encode data)))

/-- `R2Uploader.getSignatureKey`.  Note: each intermediate value `kDate`,
`kRegion`, `kService`, `kSigning` is the hex *string* returned by
`hmacSha256`, and the source passes that string straight back in as the
`key` of the next call. -/
def getSignatureKey (hmac : List Nat → List Nat → List Nat)
    (key dateStamp regionName serviceName stringToSign : List Char) :
    Except Unit (List Char) := do
  let kDate ← hmacSha256 hmac (.buf (utf8Encode ("AWS4".data ++ key))) dateStamp
  let kRegion ← hmacSha256 hmac (.str kDate) regionName
  let kService ← hmacSha256 hmac (.str kRegion) serviceName
  let kSigning ← hmacSha256 hmac (.str kService) "aws4_request".data
  hmacSha256 hmac (.str kSigning) stringToSign

/-- The AWS SigV4 signing chain as the claim states it: each intermediate
key is the raw 32-byte MAC of the previous step, region `auto`, service
`s3`, and the final signature is the hex of the last MAC. -/
def sigV4SignatureSpec (hmac : List Nat → List Nat → List Nat)
    (secretKey dateStamp stringToSign : List Char) : List Char :=
  let kDate := hmac (utf8Encode ("AWS4".data ++ secretKey)) (utf8Encode dateStamp)
  let kRegion := hmac kDate (utf8Encode "auto".data)
  let kService := hmac kRegion (utf8Encode "s3".data)
  let kSigning := hmac kService (utf8Encode "aws4_request".data)
  hexOfBytes (hmac kSigning (utf8Encode stringToSign))

/-- `endpoint.replace(/^https?:\/\//, '')` (anchored, greedy optional
`s`). -/
def stripUrlScheme (l : List Char) : List Char :=
  if "https://".data.isPrefixOf l then l.drop 8
  else if "http://".data.isPrefixOf l then l.drop 7
  else l

/-- The canonical request assembled at lines 74–81 of the source
(`dateStamp`/`amzDate` are the two strings derived from `now`, passed
explicitly). -/
def codeCanonicalRequest (sha256hex : List Nat → List Char)
    (endpoint amzDate method key : List Char) (body : List Nat) : List Char :=
  let canonicalUri := "/".data ++ key
  let canonicalQueryString : List Char := []
  let canonicalHeaders := "host:".data ++ stripUrlScheme endpoint
    ++ "\nx-amz-content-sha256:".data ++ sha256hex body
    ++ "\nx-amz-date:".data ++ amzDate ++ "\n".data
  let signedHeaders := "host;x-amz-content-sha256;x-amz-date".data
  let payloadHash := sha256hex body
  method ++ "\n".data ++ canonicalUri ++ "\n".data ++ canonicalQueryString
    ++ "\n".data ++ canonicalHeaders ++ "\n".data ++ signedHeaders
    ++ "\n".data ++ payloadHash

/-- `credentialScope` of the source (region `auto`, service `s3`). -/
def codeCredentialScope (dateStamp : List Char) : List Char :=
  dateStamp ++ "/".data ++ "auto".data ++ "/".data ++ "s3".data ++ "/aws4_request".data

/-- The string-to-sign assembled at lines 84–86 of the source. -/
def codeStringToSign (sha256hex : List Nat → List Char)
    (endpoint dateStamp amzDate method key : List Char) (body : List Nat) : List Char :=
  "AWS4-HMAC-SHA256".data ++ "\n".data ++ amzDate ++ "\n".data
    ++ codeCredentialScope dateStamp ++ "\n".data
    ++ sha256hex (utf8Encode (codeCanonicalRequest sha256hex endpoint amzDate method key body))

/-- The header map built at lines 92–99 of the source, given the computed
signature. -/
def codeReturnedHeaders (sha256hex : List Nat → List Char)
    (accessKeyId dateStamp amzDate contentType : List Char) (body : List Nat)
    (signature : List Char) : List (List Char × List Char) :=
  let authorization := "AWS4-HMAC-SHA256".data ++ " Credential=".data ++ accessKeyId
    ++ "/".data ++ codeCredentialScope dateStamp ++ ", SignedHeaders=".data
    ++ "host;x-amz-content-sha256;x-amz-date".data ++ ", Signature=".data ++ signature
  [("Authorization".data, authorization),
   ("x-amz-content-sha256".data, sha256hex body),
   ("x-amz-date".data, amzDate),
   ("Content-Type".data, contentType)]

/-- `R2Uploader.createSignedRequest`: assemble the canonical request and
string-to-sign, derive the signature with `getSignatureKey`, and return
the four headers.  `Except.error ()` is the promise rejection. -/
def createSignedRequest (sha256hex : List Nat → List Char)
    (hmac : List Nat → List Nat → List Nat)
    (endpoint accessKeyId secretAccessKey dateStamp amzDate : List Char)
    (method key contentType : List Char) (body : List Nat) :
    Except Unit (List (List Char × List Char)) :=
  (getSignatureKey hmac secretAccessKey dateStamp "auto".data "s3".data
      (codeStringToSign sha256hex endpoint dateStamp amzDate method key body)).map
    (codeReturnedHeaders sha256hex accessKeyId dateStamp amzDate contentType body)

/-- Newline-join of a sequence of parts. -/
def joinNl : List (List Char) → List Char
  | [] => []
  | [x] => x
  | x :: rest => x ++ "\n".data ++ joinNl rest

/-- The canonical request exactly as claim C2 words it: the newline-joined
sequence of method, `/`+key, empty query string, the canonical headers
block, the signed-headers list, and the payload hash. -/
def claimCanonicalRequest (host payloadHash amzDate method key : List Char) : List Char :=
  joinNl [method,
    "/".data ++ key,
    [],
    "host:".data ++ host ++ "\nx-amz-content-sha256:".data ++ payloadHash
      ++ "\nx-amz-date:".data ++ amzDate ++ "\n".data,
    "host;x-amz-content-sha256;x-amz-date".data,
    payloadHash]

/-- The string-to-sign exactly as claim C2 words it. -/
def claimStringToSign (amzDate credentialScope hashedCanonical : List Char) : List Char :=
  joinNl ["AWS4-HMAC-SHA256".data, amzDate, credentialScope, hashedCanonical]

end R2

namespace R2

/-! ## Publish Orchestrator
(`src/unnamed/part_007`, `R2UploaderPlugin.uploadLocalImagesInContent`)

The host-app collaborators (vault, metadata cache, uploader, downloader)
are abstracted into an environment record.  `uploadImage` never throws in
the source (it catches internally and returns `null`), so it is modelled
as `Option`; path resolution, binary reads and external downloads can
throw, so they are `Except`.  Upload calls are numbered in call order so
the outcome of each call can depend on its position (the source generates
a fresh random/timestamped storage key per call). -/

/-- A vault file (`TFile`): only the fields the orchestrator consults. -/
structure VFile where
  id : Nat
  name : List Char
deriving DecidableEq

/-- The external collaborators and settings of one publish pass. -/
structure PubEnv where
  downloadExternalImages : Bool
  useImageNameAsAltText : Bool
  /-- `ImageTagProcessor.resolveImagePath` (depends on host-app state:
  attachment folder, active file) composed with Obsidian's
  `normalizePath`; throws `No active file found` for unresolvable
  relative paths. -/
  resolveNormalized : List Char → Except Unit (List Char)
  /-- `vault.getAbstractFileByPath`. -/
  getFileByPath : List Char → Option VFile
  /-- `metadataCache.getFirstLinkpathDest(imagePath, activeFile.path)`. -/
  getFirstLinkpathDest : List Char → Option VFile
  /-- `vault.getFiles()`. -/
  allFiles : List VFile
  /-- `vault.readBinary`. -/
  readBinary : VFile → Except Unit (List Nat)
  /-- Result of the n-th `this.uploadImage` call when handed these bytes
  (`none` = the upload failed and `uploadImage` returned `null`). -/
  uploadImage : Nat → List Nat → Option (List Char)
  /-- `this.downloadExternalImage(url)`: bytes of the downloaded file,
  `none` inside `ok` when it returned `null`, `error` when it threw. -/
  downloadExternal : List Char → Except Unit (Option (List Nat))

/-- One collected `(originalText, newUrl)` replacement pair. -/
structure Replacement where
  originalText : List Char
  newUrl : List Char
deriving DecidableEq

/-- The mutable loop state of `uploadLocalImagesInContent`:
`successCount`, `errorCount`, the `replacements` array, plus
instrumentation (`uploadIdx`, `uploads`) recording each `uploadImage`
call. -/
structure PubAcc where
  successCount : Nat
  errorCount : Nat
  replacements : List Replacement
  uploadIdx : Nat
  uploads : List (List Nat)
deriving DecidableEq

/-- The `try { … } catch { errorCount++ }` body for one local image tag
(source lines 1044–1114): resolve the path, look the file up with the
three-stage fallback, read its bytes, upload, and either push a
replacement or count an error. -/
def stepLocal (env : PubEnv) (acc : PubAcc) (tag : ImageTag) : PubAcc :=
  match env.resolveNormalized tag.imagePath with
  | .error _ => { acc with errorCount := acc.errorCount + 1 }
  | .ok normalizedPath =>
    let file0 := env.getFileByPath normalizedPath
    let file1 := match file0 with
      | some f => some f
      | none => env.getFirstLinkpathDest tag.imagePath
    let file2 := match file1 with
      | some f => some f
      | none =>
        let imageName := afterLastSep '/' tag.imagePath
        env.allFiles.find? (fun f => f.name = imageName)
    match file2 with
    | none => { acc with errorCount := acc.errorCount + 1 }
    | some file =>
      match env.readBinary file with
      | .error _ => { acc with errorCount := acc.errorCount + 1 }
      | .ok bytes =>
        match env.uploadImage acc.uploadIdx bytes with
        | some url =>
          { acc with
            successCount := acc.successCount + 1,
            replacements := acc.replacements
              ++ [{ originalText := tag.originalText, newUrl := url }],
            uploadIdx := acc.uploadIdx + 1,
            uploads := acc.uploads ++ [bytes] }
        | none =>
          { acc with
            errorCount := acc.errorCount + 1,
            uploadIdx := acc.uploadIdx + 1,
            uploads := acc.uploads ++ [bytes] }

/-- The `try { … } catch { errorCount++ }` body for one external image tag
(source lines 1117–1144): download, then upload. -/
def stepExternal (env : PubEnv) (acc : PubAcc) (tag : ImageTag) : PubAcc :=
  match env.downloadExternal tag.imagePath with
  | .error _ => { acc with errorCount := acc.errorCount + 1 }
  | .ok none => { acc with errorCount := acc.errorCount + 1 }
  | .ok (some bytes) =>
    match env.uploadImage acc.uploadIdx bytes with
    | some url =>
      { acc with
        successCount := acc.successCount + 1,
        replacements := acc.replacements
          ++ [{ originalText := tag.originalText, newUrl := url }],
        uploadIdx := acc.uploadIdx + 1,
        uploads := acc.uploads ++ [bytes] }
    | none =>
      { acc with
        errorCount := acc.errorCount + 1,
        uploadIdx := acc.uploadIdx + 1,
        uploads := acc.uploads ++ [bytes] }

/-- The image-extension strip of the alt-text policy:
`/\.(png|jpg|jpeg|gif|svg|webp|bmp|tiff|tif)$/i`, first alternative in
order; matching is case-insensitive but the kept part preserves case. -/
def stripImgExt (l : List Char) : List Char :=
  let lower := toLowerL l
  match ["png", "jpg", "jpeg", "gif", "svg", "webp", "bmp", "tiff",
         "tif"].map String.data |>.find? (fun e => ('.' :: e).isSuffixOf lower) with
  | some e => l.take (l.length - (e.length + 1))
  | none => l

/-- One iteration of the replacement-application loop (source lines
1147–1180): derive the file name from the original text, build the alt
text and the new tag (video or image), and `replaceAll` it into the
document. -/
def applyReplacement (useAlt : Bool) (content : List Char) (r : Replacement) : List Char :=
  let fileName :=
    if "![[".data.isPrefixOf r.originalText ∧ "]]".data.isSuffixOf r.originalText then
      (r.originalText.drop 3).take (r.originalText.length - 5)
    else
      match (mdScan r.originalText).head? with
      | some t => t.imagePath
      | none => []
  let altText :=
    if useAlt ∧ fileName ≠ [] then
      jsReplaceAll (jsReplaceAll (stripImgExt fileName) "-".data " ".data) "_".data " ".data
    else []
  let isVideo := isVideoAsset (some fileName) || isVideoAsset (some r.newUrl)
  let newImageTag :=
    if isVideo then "<video controls src=\"".data ++ r.newUrl ++ "\"></video>".data
    else "![".data ++ altText ++ "](".data ++ r.newUrl ++ ")".data
  jsReplaceAll content r.originalText newImageTag

/-- The full result of one `uploadLocalImagesInContent` call, with the
upload-call trace kept for observability. -/
structure PublishTrace where
  uploads : List (List Nat)
  replacements : List Replacement
  successCount : Nat
  errorCount : Nat
  updatedContent : List Char
deriving DecidableEq

/-- `uploadLocalImagesInContent` (source lines 1009–1183), instrumented
with the list of upload calls made. -/
def uploadLocalImagesInContentT (env : PubEnv) (content : List Char) : PublishTrace :=
  let imageTags := extractImageTags content
  if imageTags = [] then
    { uploads := [], replacements := [], successCount := 0, errorCount := 0,
      updatedContent := content }
  else
    let localImageTags := imageTags.filter (fun t => isLocalImage t.imagePath)
    let externalImageTags :=
      if env.downloadExternalImages then
        imageTags.filter (fun t => ¬ isLocalImage t.imagePath)
      else []
    if localImageTags = [] ∧ externalImageTags = [] then
      { uploads := [], replacements := [], successCount := 0, errorCount := 0,
        updatedContent := content }
    else
      let acc0 : PubAcc :=
        { successCount := 0, errorCount := 0, replacements := [],
          uploadIdx := 0, uploads := [] }
      let acc1 := localImageTags.foldl (stepLocal env) acc0
      let acc2 := externalImageTags.foldl (stepExternal env) acc1
      let updated := acc2.replacements.foldl
        (applyReplacement env.useImageNameAsAltText) content
      { uploads := acc2.uploads, replacements := acc2.replacements,
        successCount := acc2.successCount, errorCount := acc2.errorCount,
        updatedContent := updated }

/-- The `{ updatedContent, successCount, errorCount }` triple the source
function actually returns. -/
def uploadLocalImagesInContent (env : PubEnv) (content : List Char) :
    List Char × Nat × Nat :=
  let t := uploadLocalImagesInContentT env content
  (t.updatedContent, t.successCount, t.errorCount)

end R2





namespace R2

/-! ### Concrete publish scenario for C3 -/

/-- The C3 document: two identical embeds of the same local image path. -/
def c3Content : List Char := "![[pic.png]]\n![[pic.png]]".data

/-- Environment for the C3 scenario: `pic.png` resolves (first lookup
stage) to a single vault file whose bytes are `b`; the first upload call
returns `u0`, every later one `u1` (the source generates a fresh
random/timestamped key per call, so distinct URLs model reality);
external-image download is disabled. -/
def c3Env (u0 u1 : List Char) (b : List Nat) : PubEnv where
  downloadExternalImages := false
  useImageNameAsAltText := false
  resolveNormalized := fun p => .ok p
  getFileByPath := fun p =>
    if p = "pic.png".data then some ⟨0, "pic.png".data⟩ else none
  getFirstLinkpathDest := fun _ => none
  allFiles := []
  readBinary := fun _ => .ok b
  uploadImage := fun i _ => if i = 0 then some u0 else some u1
  downloadExternal := fun _ => .error ()

end R2

namespace R2

/-! ## Shared helper lemmas -/

/-- The second link of the chain already feeds `importKey` a string, so the
whole derivation rejects, whatever the inputs. -/
theorem getSignatureKey_always_err (hmac : List Nat → List Nat → List Nat)
    (key dateStamp regionName serviceName stringToSign : List Char) :
    getSignatureKey hmac key dateStamp regionName serviceName stringToSign
      = Except.error () := rfl

end R2

namespace R2

/-! ## Claim theorems -/

/-- **C1** (code_bug).  The claim states that `getSignatureKey` computes
the AWS SigV4 chained-HMAC signature with each intermediate key being the
raw 32-byte MAC of the previous step.  In the source every intermediate
key is the lowercase-hex *string* returned by `hmacSha256`, and WebCrypto
`importKey('raw', …)` rejects a string key, so the derivation always fails
and in particular never produces the claimed signature — for every
`HMAC-SHA256` implementation `hmac` and all inputs. -/
theorem c1_getSignatureKey_chain_rejected :
    ∀ (hmac : List Nat → List Nat → List Nat)
      (key dateStamp regionName serviceName stringToSign : List Char),
      getSignatureKey hmac key dateStamp regionName serviceName stringToSign
          = Except.error ()
        ∧ getSignatureKey hmac key dateStamp regionName serviceName stringToSign
          ≠ Except.ok (sigV4SignatureSpec hmac key dateStamp stringToSign) := by
  intro hmac key dateStamp regionName serviceName stringToSign
  exact ⟨getSignatureKey_always_err _ _ _ _ _ _, by
    rw [getSignatureKey_always_err]
    exact fun h => Except.noConfusion h⟩

/-- **C2 counterexample.**  At a concrete request (and concrete stand-ins
for the hash and MAC primitives) `createSignedRequest` does not return the
four claimed headers: it rejects, because the signature derivation feeds
`importKey` a string key. -/
theorem c2_createSignedRequest_rejects :
    createSignedRequest (fun _ => "deadbeef".data) (fun _ _ => [0])
      "https://acct.r2.cloudflarestorage.com".data "AK".data "SK".data
      "20240101".data "20240101T000000Z".data "PUT".data "k.png".data
      "image/png".data [137, 80] = Except.error () := rfl

/-- **C2** (amended).  The signer builds the canonical request and the
string-to-sign exactly as the claim states (newline-joined sequence;
credential scope `dateStamp/auto/s3/aws4_request`), and the header map it
would return carries exactly the four claimed headers with
`x-amz-content-sha256 = hex(SHA256(body))`, `x-amz-date = amzDate` and the
caller's `Content-Type`; but the signature step always rejects (see C1),
so `createSignedRequest` errors instead of ever returning that map. -/
theorem c2_signed_request_construction :
    ∀ (sha256hex : List Nat → List Char) (hmac : List Nat → List Nat → List Nat)
      (endpoint accessKeyId secretAccessKey dateStamp amzDate : List Char)
      (method key contentType : List Char) (body : List Nat),
      codeCanonicalRequest sha256hex endpoint amzDate method key body
          = claimCanonicalRequest (stripUrlScheme endpoint) (sha256hex body)
              amzDate method key
        ∧ codeCredentialScope dateStamp = dateStamp ++ "/auto/s3/aws4_request".data
        ∧ codeStringToSign sha256hex endpoint dateStamp amzDate method key body
          = claimStringToSign amzDate (codeCredentialScope dateStamp)
              (sha256hex (utf8Encode
                (codeCanonicalRequest sha256hex endpoint amzDate method key body)))
        ∧ (∀ signature : List Char,
            (codeReturnedHeaders sha256hex accessKeyId dateStamp amzDate contentType body
                signature).map Prod.fst
              = ["Authorization".data, "x-amz-content-sha256".data,
                 "x-amz-date".data, "Content-Type".data]
            ∧ (codeReturnedHeaders sha256hex accessKeyId dateStamp amzDate contentType body
                signature).map Prod.snd
              = ["AWS4-HMAC-SHA256".data ++ " Credential=".data ++ accessKeyId ++ "/".data
                  ++ codeCredentialScope dateStamp ++ ", SignedHeaders=".data
                  ++ "host;x-amz-content-sha256;x-amz-date".data ++ ", Signature=".data
                  ++ signature,
                 sha256hex body, amzDate, contentType])
        ∧ createSignedRequest sha256hex hmac endpoint accessKeyId secretAccessKey
            dateStamp amzDate method key contentType body = Except.error () := by
  intro sha256hex hmac endpoint accessKeyId secretAccessKey dateStamp amzDate
    method key contentType body
  refine ⟨?_, ?_, ?_, ?_, ?_⟩
  · simp [codeCanonicalRequest, claimCanonicalRequest, joinNl, List.append_assoc]
  · simp only [codeCredentialScope, List.append_assoc]
    exact congrArg (dateStamp ++ ·) (by decide)
  · simp [codeStringToSign, claimStringToSign, joinNl, List.append_assoc]
  · intro signature
    constructor
    · simp [codeReturnedHeaders]
    · simp [codeReturnedHeaders, List.append_assoc]
  · simp [createSignedRequest, getSignatureKey_always_err, Except.map]

end R2

namespace R2

/-! ### Helpers for C5 / C6 -/

theorem takeWhile_append_all {p : Char → Bool} :
    ∀ {a b : List Char}, (∀ c ∈ a, p c = true) →
      List.takeWhile p (a ++ b) = a ++ List.takeWhile p b := by
  intro a
  induction a with
  | nil => intro b _; simp
  | cons c t ih =>
    intro b h
    have hc : p c = true := h c (by simp)
    simp only [List.cons_append, List.takeWhile_cons, hc, if_true]
    rw [ih (fun x hx => h x (by simp [hx]))]

theorem jsReplaceFirstF_at {pat rep : List Char} :
    ∀ (fuel : Nat) (l : List Char) (k : Nat), l.length < fuel →
      indexOfSub pat l = some k →
      jsReplaceFirstF fuel l pat rep = l.take k ++ rep ++ l.drop (k + pat.length) := by
  intro fuel
  induction fuel with
  | zero => intro l k hlen _; exact absurd hlen (Nat.not_lt_zero _)
  | succ fuel ih =>
    intro l k hlen hidx
    by_cases hpre : pat.isPrefixOf l = true
    · have hk : k = 0 := by
        cases l with
        | nil => simp only [indexOfSub, hpre, if_true, Option.some.injEq] at hidx; omega
        | cons c t => simp only [indexOfSub, hpre, if_true, Option.some.injEq] at hidx; omega
      subst hk
      simp [jsReplaceFirstF, hpre]
    · cases l with
      | nil =>
        exfalso
        simp only [indexOfSub] at hidx
        split at hidx
        · next hp2 => exact hpre hp2
        · cases hidx
      | cons c t =>
        simp only [indexOfSub, if_neg hpre] at hidx
        obtain ⟨k', hk', rfl⟩ := Option.map_eq_some'.mp hidx
        simp only [jsReplaceFirstF, if_neg hpre]
        rw [ih t k' (by simp only [List.length_cons] at hlen; omega) hk']
        simp only [List.take_succ_cons, List.cons_append]
        have harith : k' + 1 + pat.length = (k' + pat.length) + 1 := by omega
        rw [harith, List.drop_succ_cons]

theorem jsReplaceFirst_at {l pat rep : List Char} {k : Nat}
    (hidx : indexOfSub pat l = some k) :
    jsReplaceFirst l pat rep = l.take k ++ rep ++ l.drop (k + pat.length) :=
  jsReplaceFirstF_at (l.length + 1) l k (Nat.lt_succ_self _) hidx

theorem jsTrim_nil : jsTrim [] = [] := rfl

/-- If a regex match is found at index 0, `customizeDomainName` splices in
the replaced match. -/
theorem customizeDomainName_of_match {url cdn m dom : List Char} {k : Nat}
    (hfind : findSchemeHost url = some (0, m, dom))
    (hidx : indexOfSub dom m = some k)
    (hne : jsTrim (jsReplaceAll cdn "https://".data []) ≠ []) :
    customizeDomainName url cdn
      = m.take k ++ jsReplaceAll cdn "https://".data [] ++ m.drop (k + dom.length)
          ++ url.drop m.length := by
  have hcd : jsReplaceAll cdn "https://".data [] ≠ [] := by
    intro h; rw [h] at hne; exact hne jsTrim_nil
  simp only [customizeDomainName, hfind, hcd, hne, ne_eq, not_false_iff, and_self, if_true]
  rw [jsReplaceFirst_at hidx]
  simp

end R2

namespace R2

/-- With a scheme literal at the front, the regex matches at index 0 and
captures the host. -/
theorem dom_eq_host {host rest : List Char}
    (h2 : ∀ c ∈ host, c ≠ '/')
    (h3 : rest = [] ∨ ∃ t, rest = '/' :: t) :
    (host ++ rest).takeWhile (· ≠ '/') = host := by
  rw [takeWhile_append_all (fun c hc => by simp [h2 c hc])]
  rcases h3 with h | ⟨t, rfl⟩
  · simp [h]
  · simp

theorem findSchemeHost_https {host rest : List Char}
    (h1 : host ≠ []) (h2 : ∀ c ∈ host, c ≠ '/')
    (h3 : rest = [] ∨ ∃ t, rest = '/' :: t) :
    findSchemeHost ("https://".data ++ (host ++ rest))
      = some (0, "https://".data ++ host, host) := by
  have htry : trySchemeAt ('h' :: 't' :: 't' :: 'p' :: 's' :: ':' :: '/' :: '/' :: (host ++ rest))
      = some ("https://".data ++ host, host) := by
    show (if (host ++ rest).takeWhile (· ≠ '/') = [] then none
      else some ("https://".data ++ (host ++ rest).takeWhile (· ≠ '/'),
        (host ++ rest).takeWhile (· ≠ '/'))) = some ("https://".data ++ host, host)
    rw [dom_eq_host h2 h3, if_neg h1]
  show findSchemeHost ('h' :: 't' :: 't' :: 'p' :: 's' :: ':' :: '/' :: '/' :: (host ++ rest))
    = some (0, "https://".data ++ host, host)
  simp only [findSchemeHost, htry]

theorem findSchemeHost_http {host rest : List Char}
    (h1 : host ≠ []) (h2 : ∀ c ∈ host, c ≠ '/')
    (h3 : rest = [] ∨ ∃ t, rest = '/' :: t) :
    findSchemeHost ("http://".data ++ (host ++ rest))
      = some (0, "http://".data ++ host, host) := by
  have htry : trySchemeAt ('h' :: 't' :: 't' :: 'p' :: ':' :: '/' :: '/' :: (host ++ rest))
      = some ("http://".data ++ host, host) := by
    show (if (host ++ rest).takeWhile (· ≠ '/') = [] then none
      else some ("http://".data ++ (host ++ rest).takeWhile (· ≠ '/'),
        (host ++ rest).takeWhile (· ≠ '/'))) = some ("http://".data ++ host, host)
    rw [dom_eq_host h2 h3, if_neg h1]
  show findSchemeHost ('h' :: 't' :: 't' :: 'p' :: ':' :: '/' :: '/' :: (host ++ rest))
    = some (0, "http://".data ++ host, host)
  simp only [findSchemeHost, htry]

end R2

namespace R2

/-- **C5 counterexample.**  For a url with an `http://` scheme the claim
demands result `https://{customDomain}/…`, but the code keeps the original
scheme: the replacement only swaps the captured host inside the matched
text. -/
theorem c5_http_scheme_preserved :
    customizeDomainName "http://example.org/a.png".data "cdn.example.com".data
        = "http://cdn.example.com/a.png".data
      ∧ customizeDomainName "http://example.org/a.png".data "cdn.example.com".data
        ≠ "https://cdn.example.com/a.png".data := by decide

/-- **C5** (amended).  With a non-empty custom domain (after stripping any
typed `https://`), a url whose first `scheme://host` match starts at the
front has just its *host* replaced by the custom domain — the original
scheme (`http` or `https`) is preserved, and the substitution lands on the
host exactly when the host string's first occurrence in the matched text
is at the expected offset (8 for `https://`, 7 for `http://`).  A url with
no `scheme://host` match anywhere becomes
`https://{customDomain}/{url}`, and an empty (or whitespace-only) custom
domain leaves the url unchanged. -/
theorem c5_customizeDomainName_amended :
    (∀ host rest cdn : List Char, host ≠ [] → (∀ c ∈ host, c ≠ '/') →
      (rest = [] ∨ ∃ t, rest = '/' :: t) →
      indexOfSub host ("https://".data ++ host) = some 8 →
      jsTrim (jsReplaceAll cdn "https://".data []) ≠ [] →
      customizeDomainName ("https://".data ++ (host ++ rest)) cdn
        = "https://".data ++ jsReplaceAll cdn "https://".data [] ++ rest)
  ∧ (∀ host rest cdn : List Char, host ≠ [] → (∀ c ∈ host, c ≠ '/') →
      (rest = [] ∨ ∃ t, rest = '/' :: t) →
      indexOfSub host ("http://".data ++ host) = some 7 →
      jsTrim (jsReplaceAll cdn "https://".data []) ≠ [] →
      customizeDomainName ("http://".data ++ (host ++ rest)) cdn
        = "http://".data ++ jsReplaceAll cdn "https://".data [] ++ rest)
  ∧ (∀ url cdn : List Char, findSchemeHost url = none →
      jsTrim (jsReplaceAll cdn "https://".data []) ≠ [] →
      customizeDomainName url cdn
        = "https://".data ++ jsReplaceAll cdn "https://".data [] ++ "/".data ++ url)
  ∧ (∀ url cdn : List Char, jsTrim (jsReplaceAll cdn "https://".data []) = [] →
      customizeDomainName url cdn = url) := by
  refine ⟨?_, ?_, ?_, ?_⟩
  · intro host rest cdn h1 h2 h3 hidx htrim
    rw [customizeDomainName_of_match (findSchemeHost_https h1 h2 h3) hidx htrim]
    have h8 : "https://".data.length = 8 := rfl
    have ht : ("https://".data ++ host).take 8 = "https://".data :=
      h8 ▸ List.take_left "https://".data host
    have hd : ("https://".data ++ host).drop (8 + host.length) = [] := by
      have hl : 8 + host.length = ("https://".data ++ host).length := by
        rw [List.length_append, h8]
      rw [hl, List.drop_length]
    have hu : ("https://".data ++ (host ++ rest)).drop ("https://".data ++ host).length
        = rest := by
      rw [← List.append_assoc, List.drop_left]
    rw [ht, hd, hu]
    simp
  · intro host rest cdn h1 h2 h3 hidx htrim
    rw [customizeDomainName_of_match (findSchemeHost_http h1 h2 h3) hidx htrim]
    have h7 : "http://".data.length = 7 := rfl
    have ht : ("http://".data ++ host).take 7 = "http://".data :=
      h7 ▸ List.take_left "http://".data host
    have hd : ("http://".data ++ host).drop (7 + host.length) = [] := by
      have hl : 7 + host.length = ("http://".data ++ host).length := by
        rw [List.length_append, h7]
      rw [hl, List.drop_length]
    have hu : ("http://".data ++ (host ++ rest)).drop ("http://".data ++ host).length
        = rest := by
      rw [← List.append_assoc, List.drop_left]
    rw [ht, hd, hu]
    simp
  · intro url cdn hnone htrim
    have hcd : jsReplaceAll cdn "https://".data [] ≠ [] := by
      intro h; rw [h] at htrim; exact htrim jsTrim_nil
    simp only [customizeDomainName, hnone]
    rw [if_pos ⟨hcd, htrim⟩]
  · intro url cdn htrim
    simp only [customizeDomainName]
    rw [if_neg (fun hc => hc.2 htrim)]

/-- **C5 witness.**  The amended theorem applied at the spec's own example
(`https` case, where it reproduces the claimed output), at a concrete
`http` url, at a bare path, and at the empty custom domain. -/
theorem c5_customizeDomainName_amended_witness :
    customizeDomainName "https://acct.r2.cloudflarestorage.com/bucket/key.png".data
        "cdn.example.com".data = "https://cdn.example.com/bucket/key.png".data
      ∧ customizeDomainName "http://example.org/bucket/key.png".data
        "cdn.example.com".data = "http://cdn.example.com/bucket/key.png".data
      ∧ customizeDomainName "bucket/key.png".data "cdn.example.com".data
        = "https://cdn.example.com/bucket/key.png".data
      ∧ customizeDomainName "bucket/key.png".data [] = "bucket/key.png".data := by
  refine ⟨?_, ?_, ?_, ?_⟩
  · have h := c5_customizeDomainName_amended.1 "acct.r2.cloudflarestorage.com".data
      "/bucket/key.png".data "cdn.example.com".data (by decide) (by decide)
      (Or.inr ⟨"bucket/key.png".data, rfl⟩) (by decide) (by decide)
    exact h.trans (by decide)
  · have h := c5_customizeDomainName_amended.2.1 "example.org".data
      "/bucket/key.png".data "cdn.example.com".data (by decide) (by decide)
      (Or.inr ⟨"bucket/key.png".data, rfl⟩) (by decide) (by decide)
    exact h.trans (by decide)
  · have h := c5_customizeDomainName_amended.2.2.1 "bucket/key.png".data
      "cdn.example.com".data (by decide) (by decide)
    exact h.trans (by decide)
  · exact c5_customizeDomainName_amended.2.2.2 "bucket/key.png".data [] (by decide)

end R2

namespace R2

/-! ### Helpers for C6 -/

theorem takeWhile_eq_self_of_all {p : Char → Bool} {l : List Char}
    (h : ∀ c ∈ l, p c = true) : List.takeWhile p l = l :=
  List.takeWhile_eq_self_iff.mpr h

theorem afterLastSep_no_sep {sep : Char} {l : List Char}
    (h : ∀ c ∈ l, c ≠ sep) : afterLastSep sep l = l := by
  unfold afterLastSep
  rw [takeWhile_eq_self_of_all (fun c hc => by simp [h c (List.mem_reverse.mp hc)])]
  exact List.reverse_reverse l

theorem afterLastSep_append_sep {sep : Char} (l : List Char) :
    afterLastSep sep (l ++ [sep]) = [] := by
  unfold afterLastSep
  rw [List.reverse_append]
  simp [List.takeWhile_cons]

/-- **C6 counterexample.**  For a dot-free original name the claimed
default extension `png` is *not* used: `split('.').pop()` returns the whole
(truthy) name, so the name itself becomes the extension. -/
theorem c6_dotless_extension_counterexample :
    generateUniqueFileName ⟨2024, 0, 1, 12, 0, 0, 0⟩ "myfile".data
        = "myfile 20240101120000000.myfile".data
      ∧ (".png".data.isSuffixOf
          (generateUniqueFileName ⟨2024, 0, 1, 12, 0, 0, 0⟩ "myfile".data)) = false := by
  decide

/-- **C6** (amended).  `extension = originalName.split('.').pop() || 'png'`:
for a *non-empty* name containing no `.` the extension is the whole name
(the generated name ends with `.` followed by the original name); the
`png` default applies exactly when the substring after the last dot is
empty — i.e. for the empty name or a name ending in `.`. -/
theorem c6_dotless_extension_amended :
    (∀ (d : JsDate) (name : List Char), name ≠ [] → (∀ c ∈ name, c ≠ '.') →
      ∃ pre, generateUniqueFileName d name = pre ++ '.' :: name)
  ∧ (∀ (d : JsDate) (name : List Char),
      ∃ pre, generateUniqueFileName d (name ++ ['.']) = pre ++ ".png".data)
  ∧ (∀ d : JsDate, ∃ pre, generateUniqueFileName d [] = pre ++ ".png".data) := by
  refine ⟨?_, ?_, ?_⟩
  · intro d name h1 h2
    simp only [generateUniqueFileName, afterLastSep_no_sep h2, if_neg h1]
    split
    · exact ⟨"Pasted image ".data ++ uniqueTimestamp d, by simp only [List.append_assoc]; rfl⟩
    · exact ⟨stripLastExt name ++ " ".data ++ uniqueTimestamp d, by simp only [List.append_assoc]; rfl⟩
  · intro d name
    simp only [generateUniqueFileName, afterLastSep_append_sep, eq_self_iff_true, if_true]
    split
    · exact ⟨"Pasted image ".data ++ uniqueTimestamp d, by simp only [List.append_assoc]; rfl⟩
    · exact ⟨stripLastExt (name ++ ['.']) ++ " ".data ++ uniqueTimestamp d,
        by simp only [List.append_assoc]; rfl⟩
  · intro d
    have h : generateUniqueFileName d []
        = [] ++ " ".data ++ uniqueTimestamp d ++ ".".data ++ "png".data := rfl
    rw [h]
    exact ⟨" ".data ++ uniqueTimestamp d, by simp only [List.append_assoc]; rfl⟩

/-- **C6 witness.**  The amended theorem instantiated at a concrete date
and the dot-free name `myfile`. -/
theorem c6_dotless_extension_witness :
    ("myfile".data ≠ [] ∧ ∀ c ∈ "myfile".data, c ≠ '.')
      ∧ ∃ pre, generateUniqueFileName ⟨2024, 0, 1, 12, 0, 0, 0⟩ "myfile".data
        = pre ++ '.' :: "myfile".data :=
  ⟨by decide,
   c6_dotless_extension_amended.1 ⟨2024, 0, 1, 12, 0, 0, 0⟩ "myfile".data
     (by decide) (by decide)⟩

end R2

namespace R2

/-! ### Helpers for C7 -/

theorem natToStrF_length :
    ∀ (fuel k n : Nat), 10 ^ k ≤ n → n < 10 ^ (k + 1) → k < fuel →
      (natToStrF fuel n).length = k + 1 := by
  intro fuel
  induction fuel with
  | zero => intro k n _ _ hk; exact absurd hk (Nat.not_lt_zero _)
  | succ fuel ih =>
    intro k n h1 h2 hk
    by_cases hn : n < 10
    · have hk0 : k = 0 := by
        by_contra h
        have h10 : (10 : Nat) ≤ 10 ^ k := by
          calc (10 : Nat) = 10 ^ 1 := by norm_num
          _ ≤ 10 ^ k := Nat.pow_le_pow_right (by omega) (by omega)
        omega
      subst hk0
      simp [natToStrF, hn]
    · have hk1 : 1 ≤ k := by
        by_contra h
        have hk0 : k = 0 := by omega
        subst hk0
        simp at h2
        omega
      have hdiv1 : 10 ^ (k - 1) ≤ n / 10 := by
        rw [Nat.le_div_iff_mul_le (by omega)]
        calc 10 ^ (k - 1) * 10 = 10 ^ (k - 1 + 1) := by rw [Nat.pow_succ]
        _ = 10 ^ k := by congr 1; omega
        _ ≤ n := h1
      have hdiv2 : n / 10 < 10 ^ (k - 1 + 1) := by
        rw [Nat.div_lt_iff_lt_mul (by omega)]
        calc n < 10 ^ (k + 1) := h2
        _ = 10 ^ (k - 1 + 1) * 10 := by rw [← Nat.pow_succ]; congr 1; omega
      have hrec := ih (k - 1) (n / 10) hdiv1 hdiv2 (by omega)
      simp only [natToStrF, if_neg hn, List.length_append, List.length_cons,
        List.length_nil, hrec]
      omega

theorem natToStr_length {k n : Nat} (h1 : 10 ^ k ≤ n) (h2 : n < 10 ^ (k + 1)) :
    (natToStr n).length = k + 1 := by
  have hkn : k < n + 1 := by
    have hkp : k < 10 ^ k := Nat.lt_pow_self (by omega) k
    omega
  exact natToStrF_length (n + 1) k n h1 h2 hkn

theorem natToStr_length1 {n : Nat} (h1 : 1 ≤ n) (h2 : n < 10) : (natToStr n).length = 1 := by
  have hp0 : (10 : Nat) ^ 0 = 1 := by norm_num
  have hp1 : (10 : Nat) ^ (0 + 1) = 10 := by norm_num
  have h := @natToStr_length 0 n (by rw [hp0]; exact h1) (by rw [hp1]; exact h2)
  omega

theorem natToStr_length2 {n : Nat} (h1 : 10 ≤ n) (h2 : n < 100) : (natToStr n).length = 2 := by
  have hp1 : (10 : Nat) ^ 1 = 10 := by norm_num
  have hp2 : (10 : Nat) ^ (1 + 1) = 100 := by norm_num
  have h := @natToStr_length 1 n (by rw [hp1]; exact h1) (by rw [hp2]; exact h2)
  omega

theorem natToStr_length4 {n : Nat} (h1 : 1000 ≤ n) (h2 : n < 10000) :
    (natToStr n).length = 4 := by
  have hp3 : (10 : Nat) ^ 3 = 1000 := by norm_num
  have hp4 : (10 : Nat) ^ (3 + 1) = 10000 := by norm_num
  have h := @natToStr_length 3 n (by rw [hp3]; exact h1) (by rw [hp4]; exact h2)
  omega

theorem padZero_length (n : Nat) (l : List Char) :
    (padZero n l).length = n - l.length + l.length := by
  simp [padZero]

/-- **C7.**  `generateName`: an empty or whitespace-only template yields
exactly the generated unique file name; otherwise the template undergoes
literal first-occurrence-only substitution of `{year}`, `{mon}`, `{day}`,
`{random}`, `{filename}` (in that order) with the 4-digit year, 2-digit
month, 2-digit day, a 20-character alphanumeric random string, and the
unique file name; a repeated token is left unreplaced (final conjunct:
concrete repeated `{year}`). -/
theorem c7_generateName_template :
    ∀ (rand : Nat → Fin 62) (d : JsDate) (pathTmpl imageName : List Char),
      (generateName rand d pathTmpl imageName =
        if (jsTrim pathTmpl).length > 0 then
          jsReplaceFirst (jsReplaceFirst (jsReplaceFirst (jsReplaceFirst (jsReplaceFirst
            pathTmpl "{year}".data (natToStr d.fullYear))
            "{mon}".data (padZero 2 (natToStr (d.month0 + 1))))
            "{day}".data (padZero 2 (natToStr d.day)))
            "{random}".data (generateRandomString rand 20))
            "{filename}".data (generateUniqueFileName d imageName)
        else generateUniqueFileName d imageName)
      ∧ (jsTrim pathTmpl = [] →
          generateName rand d pathTmpl imageName = generateUniqueFileName d imageName)
      ∧ (generateRandomString rand 20).length = 20
      ∧ (∀ c ∈ generateRandomString rand 20, c ∈ randomAlphabet)
      ∧ (1000 ≤ d.fullYear → d.fullYear < 10000 → (natToStr d.fullYear).length = 4)
      ∧ (d.month0 < 12 → (padZero 2 (natToStr (d.month0 + 1))).length = 2)
      ∧ (1 ≤ d.day → d.day ≤ 31 → (padZero 2 (natToStr d.day)).length = 2)
      ∧ generateName (fun _ => ⟨0, by decide⟩) ⟨2024, 0, 5, 1, 2, 3, 45⟩
          "{year}-{year}".data "a.png".data = "2024-{year}".data := by
  intro rand d pathTmpl imageName
  refine ⟨rfl, ?_, ?_, ?_, ?_, ?_, ?_, by decide⟩
  · intro h
    simp [generateName, h]
  · simp [generateRandomString]
  · intro c hc
    simp only [generateRandomString, List.mem_map] at hc
    obtain ⟨i, _, rfl⟩ := hc
    exact List.get_mem _ _ _
  · intro hy1 hy2
    have h := natToStr_length4 hy1 hy2
    omega
  · intro hm
    rcases Nat.lt_or_ge (d.month0 + 1) 10 with hn | hn
    · have h := natToStr_length1 (by omega) hn
      rw [padZero_length]
      omega
    · have h := natToStr_length2 hn (by omega)
      rw [padZero_length]
      omega
  · intro hd1 hd2
    rcases Nat.lt_or_ge d.day 10 with hn | hn
    · have h := natToStr_length1 hd1 hn
      rw [padZero_length]
      omega
    · have h := natToStr_length2 hn (by omega)
      rw [padZero_length]
      omega

/-- **C7 witness.**  The theorem instantiated at a concrete random stream,
date, whitespace template and name, with each hypothesis discharged. -/
theorem c7_generateName_template_witness :
    (jsTrim "  ".data = []
      ∧ generateName (fun _ => ⟨0, by decide⟩) ⟨2024, 0, 5, 1, 2, 3, 45⟩
          "  ".data "a.png".data
        = generateUniqueFileName ⟨2024, 0, 5, 1, 2, 3, 45⟩ "a.png".data)
      ∧ (natToStr 2024).length = 4
      ∧ (padZero 2 (natToStr (0 + 1))).length = 2
      ∧ (padZero 2 (natToStr 5)).length = 2 := by
  have h := c7_generateName_template (fun _ => ⟨0, by decide⟩)
    ⟨2024, 0, 5, 1, 2, 3, 45⟩ "  ".data "a.png".data
  exact ⟨⟨by decide, h.2.1 (by decide)⟩,
    h.2.2.2.2.1 (by decide) (by decide),
    h.2.2.2.2.2.1 (by decide),
    h.2.2.2.2.2.2.1 (by decide) (by decide)⟩

end R2

namespace R2

/-! ### Helpers for C8 -/

theorem hasVideoExtAt_nil (i : Nat) (e : List Char) : ¬ hasVideoExtAt [] i e := by
  intro h
  have h1 := h.1
  simp at h1

theorem videoTest_iff : ∀ l : List Char,
    videoTest l = true ↔ ∃ i e, e ∈ videoExts ∧ hasVideoExtAt l i e := by
  intro l
  induction l with
  | nil =>
    constructor
    · intro h; exact absurd h (by simp [videoTest])
    · rintro ⟨i, e, -, h⟩; exact absurd h (hasVideoExtAt_nil i e)
  | cons c rest ih =>
    show (videoTestAt (c :: rest) || videoTest rest) = true ↔ _
    rw [Bool.or_eq_true, ih]
    constructor
    · rintro (hat | ⟨i, e, he, hh⟩)
      · show ∃ i e, e ∈ videoExts ∧ hasVideoExtAt (c :: rest) i e
        have hat' : (decide (c = '.')
            && videoExts.any (fun e => e.isPrefixOf rest
              && videoBoundary (rest.drop e.length))) = true := hat
        rw [Bool.and_eq_true, decide_eq_true_eq] at hat'
        obtain ⟨hc, hany⟩ := hat'
        subst hc
        rw [List.any_eq_true] at hany
        obtain ⟨e, he, hpe⟩ := hany
        rw [Bool.and_eq_true] at hpe
        obtain ⟨hp, hb⟩ := hpe
        refine ⟨0, e, he, ?_, ?_⟩
        · simp only [List.drop_zero, List.take_succ_cons]
          congr 1
          exact (List.prefix_iff_eq_take.mp (List.isPrefixOf_iff_prefix.mp hp)).symm
        · have h01 : 0 + 1 + e.length = e.length + 1 := by omega
          rw [h01, List.drop_succ_cons]
          exact hb
      · refine ⟨i + 1, e, he, ?_, ?_⟩
        · rw [List.drop_succ_cons]; exact hh.1
        · have harith : i + 1 + 1 + e.length = (i + 1 + e.length) + 1 := by omega
          rw [harith, List.drop_succ_cons]; exact hh.2
    · rintro ⟨i, e, he, h1, h2⟩
      cases i with
      | zero =>
        left
        rw [List.drop_zero, List.take_succ_cons] at h1
        injection h1 with hc ht
        subst hc
        show (decide (('.' : Char) = '.')
          && videoExts.any (fun e => e.isPrefixOf rest
            && videoBoundary (rest.drop e.length))) = true
        rw [Bool.and_eq_true, decide_eq_true_eq]
        refine ⟨rfl, ?_⟩
        rw [List.any_eq_true]
        refine ⟨e, he, ?_⟩
        rw [Bool.and_eq_true]
        constructor
        · exact List.isPrefixOf_iff_prefix.mpr (List.prefix_iff_eq_take.mpr ht.symm)
        · have h01 : 0 + 1 + e.length = e.length + 1 := by omega
          rw [h01, List.drop_succ_cons] at h2
          exact h2
      | succ i =>
        right
        refine ⟨i, e, he, ?_, ?_⟩
        · rw [List.drop_succ_cons] at h1; exact h1
        · have harith : i + 1 + 1 + e.length = (i + 1 + e.length) + 1 := by omega
          rw [harith, List.drop_succ_cons] at h2; exact h2

/-- **C8.**  `isVideoAsset` returns `true` exactly when the
percent-decoded target (falling back to the raw string on decode
failure), lower-cased, contains a dot followed by one of the video
extensions immediately followed by end-of-string, `?` or `#`; and the
spec's four examples. -/
theorem c8_isVideoAsset_characterization :
    (∀ t : Option (List Char),
      isVideoAsset t = true ↔
        ∃ s, t = some s ∧ s ≠ [] ∧ ∃ i e, e ∈ videoExts ∧
          hasVideoExtAt (toLowerL ((decodeURIComponentL s).getD s)) i e)
  ∧ isVideoAsset (some "photo.png".data) = false
  ∧ isVideoAsset (some "clip.MP4".data) = true
  ∧ isVideoAsset (some "clip.mp4?x=1".data) = true
  ∧ isVideoAsset none = false := by
  refine ⟨?_, by decide, by decide, by decide, rfl⟩
  intro t
  cases t with
  | none =>
    simp [isVideoAsset]
  | some s =>
    by_cases hs : s = []
    · subst hs
      simp [isVideoAsset]
    · have hun : isVideoAsset (some s)
          = videoTest (toLowerL ((decodeURIComponentL s).getD s)) := by
        simp only [isVideoAsset, if_neg hs]
      rw [hun, videoTest_iff]
      constructor
      · rintro ⟨i, e, he, hh⟩
        exact ⟨s, rfl, hs, i, e, he, hh⟩
      · rintro ⟨s', heq, -, i, e, he, hh⟩
        cases heq
        exact ⟨i, e, he, hh⟩

end R2

namespace R2

/-! ### Helpers for C9 / C10 -/

theorem tryMd_spec : ∀ {l orig alt p : List Char}, tryMd l = some (orig, alt, p) →
    orig = '!' :: '[' :: (alt ++ ']' :: '(' :: (p ++ [')'])) ∧ ∃ tail, l = orig ++ tail := by
  intro l orig alt p h
  unfold tryMd at h
  split at h
  next rest =>
    split at h
    next rest2 hdrop =>
      split at h
      next tail2 hdrop2 =>
        simp only [] at h
        split at h
        next => cases h
        next hp =>
          injection h with h1
          injection h1 with horig h2
          injection h2 with halt hpath
          subst horig; subst halt; subst hpath
          refine ⟨rfl, tail2, ?_⟩
          have hr : rest.takeWhile (· ≠ ']') ++ rest.dropWhile (· ≠ ']') = rest :=
            List.takeWhile_append_dropWhile _ _
          have hr2 : rest2.takeWhile (· ≠ ')') ++ rest2.dropWhile (· ≠ ')') = rest2 :=
            List.takeWhile_append_dropWhile _ _
          rw [hdrop] at hr
          rw [hdrop2] at hr2
          simp only [ne_eq, decide_not] at hr hr2 ⊢
          generalize hA : List.takeWhile (fun x => !decide (x = ']')) rest = a at hr ⊢
          generalize hQ : List.takeWhile (fun x => !decide (x = ')')) rest2 = q at hr2 ⊢
          rw [← hr, ← hr2]
          simp [List.append_assoc]
      next => cases h
    next => cases h
  next => cases h

theorem tryWiki_spec : ∀ {l orig tgt : List Char}, tryWiki l = some (orig, tgt) →
    orig = '!' :: '[' :: '[' :: (tgt ++ ']' :: [']']) ∧ ∃ tail, l = orig ++ tail := by
  intro l orig tgt h
  unfold tryWiki at h
  split at h
  next rest =>
    split at h
    next tail2 hdrop =>
      simp only [] at h
      split at h
      next => cases h
      next htgt =>
        injection h with h1
        injection h1 with horig h2
        subst horig; subst h2
        refine ⟨rfl, tail2, ?_⟩
        have hr : rest.takeWhile (· ≠ ']') ++ rest.dropWhile (· ≠ ']') = rest :=
          List.takeWhile_append_dropWhile _ _
        rw [hdrop] at hr
        simp only [ne_eq, decide_not] at hr ⊢
        generalize hA : List.takeWhile (fun x => !decide (x = ']')) rest = a at hr ⊢
        rw [← hr]
        simp [List.append_assoc]
    next => cases h
  next => cases h

end R2

namespace R2

theorem drop_cons_succ {text : List Char} {i : Nat} {c : Char} {rest : List Char}
    (h : text.drop i = c :: rest) : text.drop (i + 1) = rest := by
  have h2 : List.drop 1 (List.drop i text) = List.drop (i + 1) text :=
    List.drop_drop 1 i text
  rw [← h2, h]
  rfl

theorem mdScanF_sound (text : List Char) :
    ∀ (fuel i : Nat) (t : ImageTag), t ∈ mdScanF fuel (text.drop i) i →
      t.stop = t.start + t.originalText.length
      ∧ (text.drop t.start).take (t.stop - t.start) = t.originalText
      ∧ i ≤ t.start
      ∧ t.originalText
        = '!' :: '[' :: (t.altText ++ ']' :: '(' :: (t.imagePath ++ [')'])) := by
  intro fuel
  induction fuel with
  | zero => intro i t ht; cases ht
  | succ fuel ih =>
    intro i t ht
    cases htry : tryMd (text.drop i) with
    | some r =>
      obtain ⟨orig, alt, p⟩ := r
      obtain ⟨hshape, tail, htail⟩ := tryMd_spec htry
      simp only [mdScanF, htry] at ht
      rcases List.mem_cons.mp ht with rfl | hmem
      · refine ⟨rfl, ?_, Nat.le_refl _, hshape⟩
        simp only
        have harith : i + orig.length - i = orig.length := by omega
        rw [harith, htail, List.take_left]
      · have hdrop : (text.drop i).drop orig.length = text.drop (i + orig.length) :=
          List.drop_drop orig.length i text
        rw [hdrop] at hmem
        have hres := ih (i + orig.length) t hmem
        exact ⟨hres.1, hres.2.1, by omega, hres.2.2.2⟩
    | none =>
      simp only [mdScanF, htry] at ht
      cases hl : text.drop i with
      | nil => rw [hl] at ht; cases ht
      | cons c rest =>
        rw [hl] at ht
        rw [← drop_cons_succ hl] at ht
        have hres := ih (i + 1) t ht
        exact ⟨hres.1, hres.2.1, by omega, hres.2.2.2⟩

theorem wikiScanF_sound (text : List Char) :
    ∀ (fuel i : Nat) (t : ImageTag), t ∈ wikiScanF fuel (text.drop i) i →
      t.stop = t.start + t.originalText.length
      ∧ (text.drop t.start).take (t.stop - t.start) = t.originalText
      ∧ i ≤ t.start
      ∧ t.originalText = '!' :: '[' :: '[' :: (t.imagePath ++ ']' :: [']'])
      ∧ t.altText = [] := by
  intro fuel
  induction fuel with
  | zero => intro i t ht; cases ht
  | succ fuel ih =>
    intro i t ht
    cases htry : tryWiki (text.drop i) with
    | some r =>
      obtain ⟨orig, tgt⟩ := r
      obtain ⟨hshape, tail, htail⟩ := tryWiki_spec htry
      simp only [wikiScanF, htry] at ht
      rcases List.mem_cons.mp ht with rfl | hmem
      · refine ⟨rfl, ?_, Nat.le_refl _, hshape, rfl⟩
        simp only
        have harith : i + orig.length - i = orig.length := by omega
        rw [harith, htail, List.take_left]
      · have hdrop : (text.drop i).drop orig.length = text.drop (i + orig.length) :=
          List.drop_drop orig.length i text
        rw [hdrop] at hmem
        have hres := ih (i + orig.length) t hmem
        exact ⟨hres.1, hres.2.1, by omega, hres.2.2.2⟩
    | none =>
      simp only [wikiScanF, htry] at ht
      cases hl : text.drop i with
      | nil => rw [hl] at ht; cases ht
      | cons c rest =>
        rw [hl] at ht
        rw [← drop_cons_succ hl] at ht
        have hres := ih (i + 1) t ht
        exact ⟨hres.1, hres.2.1, by omega, hres.2.2.2⟩

end R2

namespace R2

theorem mdScanF_start_lb :
    ∀ (fuel : Nat) (l : List Char) (i : Nat) (t : ImageTag),
      t ∈ mdScanF fuel l i → i ≤ t.start := by
  intro fuel
  induction fuel with
  | zero => intro l i t ht; cases ht
  | succ fuel ih =>
    intro l i t ht
    cases htry : tryMd l with
    | some r =>
      obtain ⟨orig, alt, p⟩ := r
      simp only [mdScanF, htry] at ht
      rcases List.mem_cons.mp ht with rfl | hmem
      · exact Nat.le_refl _
      · have := ih _ _ t hmem; omega
    | none =>
      simp only [mdScanF, htry] at ht
      cases l with
      | nil => cases ht
      | cons c rest => have := ih _ _ t ht; omega

theorem wikiScanF_start_lb :
    ∀ (fuel : Nat) (l : List Char) (i : Nat) (t : ImageTag),
      t ∈ wikiScanF fuel l i → i ≤ t.start := by
  intro fuel
  induction fuel with
  | zero => intro l i t ht; cases ht
  | succ fuel ih =>
    intro l i t ht
    cases htry : tryWiki l with
    | some r =>
      obtain ⟨orig, tgt⟩ := r
      simp only [wikiScanF, htry] at ht
      rcases List.mem_cons.mp ht with rfl | hmem
      · exact Nat.le_refl _
      · have := ih _ _ t hmem; omega
    | none =>
      simp only [wikiScanF, htry] at ht
      cases l with
      | nil => cases ht
      | cons c rest => have := ih _ _ t ht; omega

theorem mdScanF_pairwise :
    ∀ (fuel : Nat) (l : List Char) (i : Nat),
      (mdScanF fuel l i).Pairwise (fun a b => a.start < b.start) := by
  intro fuel
  induction fuel with
  | zero => intro l i; exact List.Pairwise.nil
  | succ fuel ih =>
    intro l i
    cases htry : tryMd l with
    | some r =>
      obtain ⟨orig, alt, p⟩ := r
      obtain ⟨hshape, tail, htail⟩ := tryMd_spec htry
      have hlen : 0 < orig.length := by rw [hshape]; simp
      simp only [mdScanF, htry]
      rw [List.pairwise_cons]
      refine ⟨?_, ih _ _⟩
      intro b hb
      have := mdScanF_start_lb fuel _ _ b hb
      simp only
      omega
    | none =>
      simp only [mdScanF, htry]
      cases l with
      | nil => exact List.Pairwise.nil
      | cons c rest => exact ih _ _

theorem wikiScanF_pairwise :
    ∀ (fuel : Nat) (l : List Char) (i : Nat),
      (wikiScanF fuel l i).Pairwise (fun a b => a.start < b.start) := by
  intro fuel
  induction fuel with
  | zero => intro l i; exact List.Pairwise.nil
  | succ fuel ih =>
    intro l i
    cases htry : tryWiki l with
    | some r =>
      obtain ⟨orig, tgt⟩ := r
      obtain ⟨hshape, tail, htail⟩ := tryWiki_spec htry
      have hlen : 0 < orig.length := by rw [hshape]; simp
      simp only [wikiScanF, htry]
      rw [List.pairwise_cons]
      refine ⟨?_, ih _ _⟩
      intro b hb
      have := wikiScanF_start_lb fuel _ _ b hb
      simp only
      omega
    | none =>
      simp only [wikiScanF, htry]
      cases l with
      | nil => exact List.Pairwise.nil
      | cons c rest => exact ih _ _

/-- **C9.**  `extractImageTags` returns all bracket-link matches in
document order (strictly increasing start offsets) followed by all
embedded-link matches in document order, each segment consisting of
matches of its own syntax. -/
theorem c9_extract_order :
    ∀ content : List Char,
      extractImageTags content = mdScan content ++ wikiScan content
      ∧ (mdScan content).Pairwise (fun a b => a.start < b.start)
      ∧ (wikiScan content).Pairwise (fun a b => a.start < b.start)
      ∧ (∀ t ∈ mdScan content,
          t.originalText = '!' :: '[' :: (t.altText ++ ']' :: '(' :: (t.imagePath ++ [')'])))
      ∧ (∀ t ∈ wikiScan content,
          t.originalText = '!' :: '[' :: '[' :: (t.imagePath ++ ']' :: [']'])
            ∧ t.altText = []) := by
  intro content
  refine ⟨rfl, mdScanF_pairwise _ _ _, wikiScanF_pairwise _ _ _, ?_, ?_⟩
  · intro t ht
    have h := mdScanF_sound content content.length 0 t (by rw [List.drop_zero]; exact ht)
    exact h.2.2.2
  · intro t ht
    have h := wikiScanF_sound content content.length 0 t (by rw [List.drop_zero]; exact ht)
    exact ⟨h.2.2.2.1, h.2.2.2.2⟩

/-- **C9 witness.**  The ordering/shape theorem instantiated on a document
holding one bracket link followed by one wiki link. -/
theorem c9_extract_order_witness :
    (ImageTag.mk "![a](b.png)".data "a".data "b.png".data 0 11
        ∈ mdScan "![a](b.png) ![[c.png]]".data
      ∧ (ImageTag.mk "![a](b.png)".data "a".data "b.png".data 0 11).originalText
        = '!' :: '[' :: ("a".data ++ ']' :: '(' :: ("b.png".data ++ [')'])))
    ∧ (ImageTag.mk "![[c.png]]".data [] "c.png".data 12 22
        ∈ wikiScan "![a](b.png) ![[c.png]]".data
      ∧ (ImageTag.mk "![[c.png]]".data [] "c.png".data 12 22).originalText
        = '!' :: '[' :: '[' :: ("c.png".data ++ ']' :: [']'])) :=
  ⟨⟨by decide,
    (c9_extract_order "![a](b.png) ![[c.png]]".data).2.2.2.1 _ (by decide)⟩,
   ⟨by decide,
    ((c9_extract_order "![a](b.png) ![[c.png]]".data).2.2.2.2 _ (by decide)).1⟩⟩

/-- **C10.**  Every tag returned by `extractImageTags` records offsets that
locate the verbatim matched text: `end = start + originalText.length` and
`text.substring(start, end) = originalText`. -/
theorem c10_offsets_invariant :
    ∀ (content : List Char) (t : ImageTag),
      t ∈ extractImageTags content →
        t.stop = t.start + t.originalText.length
        ∧ (content.drop t.start).take (t.stop - t.start) = t.originalText := by
  intro content t ht
  rcases List.mem_append.mp ht with hm | hm
  · have h := mdScanF_sound content content.length 0 t (by rw [List.drop_zero]; exact hm)
    exact ⟨h.1, h.2.1⟩
  · have h := wikiScanF_sound content content.length 0 t (by rw [List.drop_zero]; exact hm)
    exact ⟨h.1, h.2.1⟩

/-- **C10 witness.**  The invariant instantiated at a concrete document
and its extracted tag. -/
theorem c10_offsets_invariant_witness :
    ImageTag.mk "![a](b.png)".data "a".data "b.png".data 2 13
        ∈ extractImageTags "x ![a](b.png) y".data
      ∧ (ImageTag.mk "![a](b.png)".data "a".data "b.png".data 2 13).stop
        = (ImageTag.mk "![a](b.png)".data "a".data "b.png".data 2 13).start
          + (ImageTag.mk "![a](b.png)".data "a".data "b.png".data 2 13).originalText.length
      ∧ ("x ![a](b.png) y".data.drop 2).take (13 - 2)
        = (ImageTag.mk "![a](b.png)".data "a".data "b.png".data 2 13).originalText := by
  have h := c10_offsets_invariant "x ![a](b.png) y".data
    (ImageTag.mk "![a](b.png)".data "a".data "b.png".data 2 13) (by decide)
  exact ⟨by decide, h.1, h.2⟩

end R2

namespace R2

/-! ### Helpers for C3: symbolic evaluation of `jsReplaceAll` -/

theorem jsReplaceAllF_nil (fuel : Nat) (pat rep : List Char) :
    jsReplaceAllF fuel [] pat rep = [] := by
  cases fuel with
  | zero => rfl
  | succ fuel =>
    simp only [jsReplaceAllF]
    split
    · next h =>
      exfalso
      have := h.2
      cases pat with
      | nil => exact h.1 rfl
      | cons c t => simp [List.isPrefixOf] at this
    · rfl

theorem jsReplaceAllF_head {pat x rep : List Char} (fuel : Nat) (hne : pat ≠ []) :
    jsReplaceAllF (fuel + 1) (pat ++ x) pat rep = rep ++ jsReplaceAllF fuel x pat rep := by
  simp only [jsReplaceAllF]
  rw [if_pos ⟨hne, List.isPrefixOf_iff_prefix.mpr (List.prefix_append pat x)⟩,
    List.drop_left]

theorem jsReplaceAllF_cons_no_pre {pat rep : List Char} {c : Char} {rest : List Char}
    (fuel : Nat) (h : pat.isPrefixOf (c :: rest) = false) :
    jsReplaceAllF (fuel + 1) (c :: rest) pat rep = c :: jsReplaceAllF fuel rest pat rep := by
  simp only [jsReplaceAllF]
  rw [if_neg (fun hc => by rw [h] at hc; exact Bool.noConfusion hc.2)]

theorem jsReplaceAllF_no_occur {pat rep : List Char} :
    ∀ (fuel : Nat) {l : List Char}, occursIn pat l = false →
      jsReplaceAllF fuel l pat rep = l := by
  intro fuel
  induction fuel with
  | zero => intro l _; rfl
  | succ fuel ih =>
    intro l hocc
    cases l with
    | nil => exact jsReplaceAllF_nil _ _ _
    | cons c rest =>
      have hsplit : pat.isPrefixOf (c :: rest) = false ∧ occursIn pat rest = false := by
        have : (pat.isPrefixOf (c :: rest) || occursIn pat rest) = false := hocc
        exact ⟨by cases hp : pat.isPrefixOf (c :: rest) <;> simp_all,
          by cases ho : occursIn pat rest <;> simp_all⟩
      rw [jsReplaceAllF_cons_no_pre fuel hsplit.1, ih hsplit.2]

theorem jsReplaceAll_no_occur {pat rep l : List Char} (hne : pat ≠ [])
    (hocc : occursIn pat l = false) : jsReplaceAll l pat rep = l := by
  simp only [jsReplaceAll, if_neg hne]
  exact jsReplaceAllF_no_occur _ hocc

end R2

namespace R2

theorem jsReplaceAllF_self {pat rep : List Char} (fuel : Nat) (hne : pat ≠ []) :
    jsReplaceAllF (fuel + 1) pat pat rep = rep := by
  have h := @jsReplaceAllF_head pat [] rep fuel hne
  rw [List.append_nil] at h
  rw [h, jsReplaceAllF_nil, List.append_nil]

/-- `replaceAll` on the C3 document: both occurrences of the embed text
are replaced in a single pass. -/
theorem c3_replaceAll (rep : List Char) :
    jsReplaceAll c3Content "![[pic.png]]".data rep = rep ++ '\n' :: rep := by
  have hc : c3Content = "![[pic.png]]".data ++ '\n' :: "![[pic.png]]".data := by decide
  have hlen : c3Content.length = 25 := by decide
  simp only [jsReplaceAll]
  rw [if_neg (by decide : ¬("![[pic.png]]".data = [])), hlen, hc]
  rw [show (25 : Nat) = 24 + 1 from rfl, jsReplaceAllF_head 24 (by decide)]
  rw [show (24 : Nat) = 23 + 1 from rfl, jsReplaceAllF_cons_no_pre 23 (by decide)]
  rw [show (23 : Nat) = 22 + 1 from rfl, jsReplaceAllF_self 22 (by decide)]

/-- First replacement application in the C3 scenario: the embed text is
rewritten to an image tag with the first upload's URL, at *both*
occurrences. -/
theorem c3_apply_first {u : List Char} (hvid : isVideoAsset (some u) = false) :
    applyReplacement false c3Content ⟨"![[pic.png]]".data, u⟩
      = ("![](".data ++ u ++ ")".data) ++ '\n' :: ("![](".data ++ u ++ ")".data) := by
  have hform : applyReplacement false c3Content ⟨"![[pic.png]]".data, u⟩
      = jsReplaceAll c3Content "![[pic.png]]".data
          (if (false || isVideoAsset (some u)) = true
           then "<video controls src=\"".data ++ u ++ "\"></video>".data
           else "![".data ++ [] ++ "](".data ++ u ++ ")".data) := rfl
  rw [hform, hvid]
  rw [if_neg (by decide)]
  rw [c3_replaceAll]
  rfl

/-- Second replacement application in the C3 scenario: the embed text no
longer occurs, so the second upload's URL is never written. -/
theorem c3_apply_second {u1 T : List Char}
    (hocc : occursIn "![[pic.png]]".data T = false) :
    applyReplacement false T ⟨"![[pic.png]]".data, u1⟩ = T := by
  have hform : applyReplacement false T ⟨"![[pic.png]]".data, u1⟩
      = jsReplaceAll T "![[pic.png]]".data
          (if (false || isVideoAsset (some u1)) = true
           then "<video controls src=\"".data ++ u1 ++ "\"></video>".data
           else "![".data ++ [] ++ "](".data ++ u1 ++ ")".data) := rfl
  rw [hform]
  exact jsReplaceAll_no_occur (by decide) hocc

/-- **C3 counterexample.**  Concrete run of the C3 scenario: the image
bytes are uploaded *twice* (once per occurrence), refuting "uploaded to
the store exactly once"; both occurrences do end up with the same (first)
URL. -/
theorem c3_duplicate_embed_uploads_twice :
    (uploadLocalImagesInContentT
        (c3Env "https://cdn/a.png".data "https://cdn/b.png".data [1, 2, 3])
        c3Content).uploads = [[1, 2, 3], [1, 2, 3]]
      ∧ (uploadLocalImagesInContentT
          (c3Env "https://cdn/a.png".data "https://cdn/b.png".data [1, 2, 3])
          c3Content).uploads.length ≠ 1
      ∧ (uploadLocalImagesInContentT
          (c3Env "https://cdn/a.png".data "https://cdn/b.png".data [1, 2, 3])
          c3Content).updatedContent
        = "![](https://cdn/a.png)\n![](https://cdn/a.png)".data := by
  decide

/-- **C3** (amended).  For the two-identical-embeds document, after the
publish completes both occurrences are replaced with the *same* new URL —
the first upload's — but the image bytes are uploaded exactly *twice*
(once per reference, no deduplication); the second upload's URL is
collected yet never applied, since `replaceAll` of the first pair already
rewrote every occurrence. -/
theorem c3_duplicate_embed_amended :
    ∀ (u0 u1 : List Char) (b : List Nat),
      isVideoAsset (some u0) = false →
      occursIn "![[pic.png]]".data
          (("![](".data ++ u0 ++ ")".data)
            ++ '\n' :: ("![](".data ++ u0 ++ ")".data)) = false →
      (uploadLocalImagesInContentT (c3Env u0 u1 b) c3Content).uploads = [b, b]
      ∧ (uploadLocalImagesInContentT (c3Env u0 u1 b) c3Content).successCount = 2
      ∧ (uploadLocalImagesInContentT (c3Env u0 u1 b) c3Content).errorCount = 0
      ∧ (uploadLocalImagesInContentT (c3Env u0 u1 b) c3Content).replacements
        = [⟨"![[pic.png]]".data, u0⟩, ⟨"![[pic.png]]".data, u1⟩]
      ∧ (uploadLocalImagesInContentT (c3Env u0 u1 b) c3Content).updatedContent
        = ("![](".data ++ u0 ++ ")".data)
            ++ '\n' :: ("![](".data ++ u0 ++ ")".data) := by
  intro u0 u1 b hvid hocc
  have hpipe : uploadLocalImagesInContentT (c3Env u0 u1 b) c3Content
      = { uploads := [b, b],
          replacements := [⟨"![[pic.png]]".data, u0⟩, ⟨"![[pic.png]]".data, u1⟩],
          successCount := 2, errorCount := 0,
          updatedContent :=
            applyReplacement false
              (applyReplacement false c3Content ⟨"![[pic.png]]".data, u0⟩)
              ⟨"![[pic.png]]".data, u1⟩ } := rfl
  rw [hpipe]
  refine ⟨rfl, rfl, rfl, rfl, ?_⟩
  show applyReplacement false
      (applyReplacement false c3Content ⟨"![[pic.png]]".data, u0⟩)
      ⟨"![[pic.png]]".data, u1⟩ = _
  rw [c3_apply_first hvid, c3_apply_second hocc]

/-- **C3 witness.**  The amended theorem at concrete URLs and bytes. -/
theorem c3_duplicate_embed_amended_witness :
    (uploadLocalImagesInContentT
        (c3Env "https://cdn/x0.png".data "https://cdn/x1.png".data [7, 8])
        c3Content).uploads = [[7, 8], [7, 8]]
      ∧ (uploadLocalImagesInContentT
          (c3Env "https://cdn/x0.png".data "https://cdn/x1.png".data [7, 8])
          c3Content).updatedContent
        = ("![](".data ++ "https://cdn/x0.png".data ++ ")".data)
            ++ '\n' :: ("![](".data ++ "https://cdn/x0.png".data ++ ")".data) := by
  have h := c3_duplicate_embed_amended "https://cdn/x0.png".data
    "https://cdn/x1.png".data [7, 8] (by decide) (by decide)
  exact ⟨h.1, h.2.2.2.2⟩

end R2

namespace R2

/-! ### Helpers for C4 -/

/-- Each local-tag iteration settles exactly one reference: it increments
exactly one of the two counters, and pushes a replacement exactly on
success. -/
theorem stepLocal_inv (env : PubEnv) (acc : PubAcc) (tag : ImageTag) :
    ((stepLocal env acc tag).successCount + (stepLocal env acc tag).errorCount
        = acc.successCount + acc.errorCount + 1)
      ∧ (acc.replacements.length = acc.successCount →
          (stepLocal env acc tag).replacements.length
            = (stepLocal env acc tag).successCount) := by
  unfold stepLocal
  split
  · exact ⟨by simp; omega, fun h => by simpa using h⟩
  · simp only []
    split
    · exact ⟨by simp; omega, fun h => by simpa using h⟩
    · split
      · exact ⟨by simp; omega, fun h => by simpa using h⟩
      · split
        · exact ⟨by simp; omega, fun h => by simp [List.length_append, h]⟩
        · exact ⟨by simp; omega, fun h => by simpa using h⟩

/-- Same accounting for one external-tag iteration. -/
theorem stepExternal_inv (env : PubEnv) (acc : PubAcc) (tag : ImageTag) :
    ((stepExternal env acc tag).successCount + (stepExternal env acc tag).errorCount
        = acc.successCount + acc.errorCount + 1)
      ∧ (acc.replacements.length = acc.successCount →
          (stepExternal env acc tag).replacements.length
            = (stepExternal env acc tag).successCount) := by
  unfold stepExternal
  split
  · exact ⟨by simp; omega, fun h => by simpa using h⟩
  · exact ⟨by simp; omega, fun h => by simpa using h⟩
  · split
    · exact ⟨by simp; omega, fun h => by simp [List.length_append, h]⟩
    · exact ⟨by simp; omega, fun h => by simpa using h⟩

/-- Folding a one-reference-per-iteration step over a tag list adds the
list's length to the combined counters and preserves the
`replacements.length = successCount` invariant. -/
theorem foldl_step_inv (step : PubAcc → ImageTag → PubAcc)
    (hstep : ∀ acc tag,
      ((step acc tag).successCount + (step acc tag).errorCount
          = acc.successCount + acc.errorCount + 1)
        ∧ (acc.replacements.length = acc.successCount →
            (step acc tag).replacements.length = (step acc tag).successCount)) :
    ∀ (tags : List ImageTag) (acc : PubAcc),
      ((tags.foldl step acc).successCount + (tags.foldl step acc).errorCount
          = acc.successCount + acc.errorCount + tags.length)
        ∧ (acc.replacements.length = acc.successCount →
            (tags.foldl step acc).replacements.length
              = (tags.foldl step acc).successCount) := by
  intro tags
  induction tags with
  | nil => intro acc; simp
  | cons t ts ih =>
    intro acc
    simp only [List.foldl_cons, List.length_cons]
    have h1 := hstep acc t
    have h2 := ih (step acc t)
    exact ⟨by omega, fun h => h2.2 (h1.2 h)⟩

end R2

namespace R2

/-- **C4.**  `uploadLocalImagesInContent` always returns a result triple,
with `successCount + errorCount` equal to the total number of references
it set out to process (each per-reference failure — unresolvable path,
file not found after all fallbacks, read error, upload error, download
error — counts exactly one error without aborting the rest), the
replacement plan holds exactly one pair per success (failed references
are excluded), and the returned text is the input text with exactly the
collected replacements applied. -/
theorem c4_publish_totals :
    ∀ (env : PubEnv) (content : List Char),
      (uploadLocalImagesInContentT env content).successCount
          + (uploadLocalImagesInContentT env content).errorCount
        = ((extractImageTags content).filter (fun t => isLocalImage t.imagePath)).length
          + (if env.downloadExternalImages then
              (extractImageTags content).filter (fun t => ¬ isLocalImage t.imagePath)
            else []).length
      ∧ (uploadLocalImagesInContentT env content).replacements.length
        = (uploadLocalImagesInContentT env content).successCount
      ∧ (uploadLocalImagesInContentT env content).updatedContent
        = (uploadLocalImagesInContentT env content).replacements.foldl
            (applyReplacement env.useImageNameAsAltText) content
      ∧ uploadLocalImagesInContent env content
        = ((uploadLocalImagesInContentT env content).updatedContent,
           (uploadLocalImagesInContentT env content).successCount,
           (uploadLocalImagesInContentT env content).errorCount) := by
  intro env content
  have hmain : (uploadLocalImagesInContentT env content).successCount
          + (uploadLocalImagesInContentT env content).errorCount
        = ((extractImageTags content).filter (fun t => isLocalImage t.imagePath)).length
          + (if env.downloadExternalImages then
              (extractImageTags content).filter (fun t => ¬ isLocalImage t.imagePath)
            else []).length
      ∧ (uploadLocalImagesInContentT env content).replacements.length
        = (uploadLocalImagesInContentT env content).successCount
      ∧ (uploadLocalImagesInContentT env content).updatedContent
        = (uploadLocalImagesInContentT env content).replacements.foldl
            (applyReplacement env.useImageNameAsAltText) content := by
    by_cases himg : extractImageTags content = []
    · have ht : uploadLocalImagesInContentT env content
          = { uploads := [], replacements := [], successCount := 0, errorCount := 0,
              updatedContent := content } := by
        simp only [uploadLocalImagesInContentT]
        rw [if_pos himg]
      rw [ht, himg]
      refine ⟨?_, rfl, rfl⟩
      simp
    · by_cases hboth :
        ((extractImageTags content).filter (fun t => isLocalImage t.imagePath) = []
          ∧ (if env.downloadExternalImages then
              (extractImageTags content).filter (fun t => ¬ isLocalImage t.imagePath)
            else []) = [])
      · have ht : uploadLocalImagesInContentT env content
            = { uploads := [], replacements := [], successCount := 0, errorCount := 0,
                updatedContent := content } := by
          simp only [uploadLocalImagesInContentT]
          rw [if_neg himg, if_pos hboth]
        rw [ht, hboth.1, hboth.2]
        refine ⟨by simp, rfl, rfl⟩
      · have hs : (uploadLocalImagesInContentT env content).successCount
            = ((if env.downloadExternalImages then
                  (extractImageTags content).filter (fun t => ¬ isLocalImage t.imagePath)
                else []).foldl (stepExternal env)
                (((extractImageTags content).filter
                  (fun t => isLocalImage t.imagePath)).foldl (stepLocal env)
                  { successCount := 0, errorCount := 0, replacements := [],
                    uploadIdx := 0, uploads := [] })).successCount := by
          simp only [uploadLocalImagesInContentT]
          rw [if_neg himg, if_neg hboth]
        have he : (uploadLocalImagesInContentT env content).errorCount
            = ((if env.downloadExternalImages then
                  (extractImageTags content).filter (fun t => ¬ isLocalImage t.imagePath)
                else []).foldl (stepExternal env)
                (((extractImageTags content).filter
                  (fun t => isLocalImage t.imagePath)).foldl (stepLocal env)
                  { successCount := 0, errorCount := 0, replacements := [],
                    uploadIdx := 0, uploads := [] })).errorCount := by
          simp only [uploadLocalImagesInContentT]
          rw [if_neg himg, if_neg hboth]
        have hr : (uploadLocalImagesInContentT env content).replacements
            = ((if env.downloadExternalImages then
                  (extractImageTags content).filter (fun t => ¬ isLocalImage t.imagePath)
                else []).foldl (stepExternal env)
                (((extractImageTags content).filter
                  (fun t => isLocalImage t.imagePath)).foldl (stepLocal env)
                  { successCount := 0, errorCount := 0, replacements := [],
                    uploadIdx := 0, uploads := [] })).replacements := by
          simp only [uploadLocalImagesInContentT]
          rw [if_neg himg, if_neg hboth]
        have hu : (uploadLocalImagesInContentT env content).updatedContent
            = ((if env.downloadExternalImages then
                  (extractImageTags content).filter (fun t => ¬ isLocalImage t.imagePath)
                else []).foldl (stepExternal env)
                (((extractImageTags content).filter
                  (fun t => isLocalImage t.imagePath)).foldl (stepLocal env)
                  { successCount := 0, errorCount := 0, replacements := [],
                    uploadIdx := 0, uploads := [] })).replacements.foldl
                (applyReplacement env.useImageNameAsAltText) content := by
          simp only [uploadLocalImagesInContentT]
          rw [if_neg himg, if_neg hboth]
        have h1 := foldl_step_inv (stepLocal env) (stepLocal_inv env)
          ((extractImageTags content).filter (fun t => isLocalImage t.imagePath))
          { successCount := 0, errorCount := 0, replacements := [],
            uploadIdx := 0, uploads := [] }
        have h2 := foldl_step_inv (stepExternal env) (stepExternal_inv env)
          (if env.downloadExternalImages then
            (extractImageTags content).filter (fun t => ¬ isLocalImage t.imagePath)
          else [])
          (((extractImageTags content).filter
            (fun t => isLocalImage t.imagePath)).foldl (stepLocal env)
            { successCount := 0, errorCount := 0, replacements := [],
              uploadIdx := 0, uploads := [] })
        refine ⟨?_, ?_, ?_⟩
        · rw [hs, he]
          have h1a := h1.1
          have h2a := h2.1
          simp only [] at h1a h2a ⊢
          omega
        · rw [hr, hs]
          exact h2.2 (h1.2 rfl)
        · rw [hu, hr]
  exact ⟨hmain.1, hmain.2.1, hmain.2.2, rfl⟩

end R2
